import Mathlib

/-!
# ParserWeatherSensor: bounded sample buffer, extraction and acquisition loop

A shallow embedding of `src/ParserWeatherSensor.cpp`.

Conventions of the embedding:

* `std::string` is a `List Char` (one `Char` per byte of the string);
* `double` is modelled by exact rationals `ℚ`: rounding is outside the model; the range
  of the format is modelled where the code depends on it, in `std::stod`, which throws
  `std::out_of_range` on a numeral it cannot represent;
* `int timeIndex` is an unbounded `Int`: within one run the counter is bumped at
  most once per five-second tick while `duration` is an `int` number of seconds,
  so it stays far below `2^31`;
* the mutex, the window handle and the worker thread are not part of the state;
  values written by other threads (`globalStopFlag`, the clock) are inputs of each
  loop iteration.
-/

namespace WeatherSensor

/-! ## Data model -/

/-- Member `int maxPoints = 300;` of `RealtimePlot`; it is never assigned again. -/
def maxPoints : Nat := 300

/-- The data members of `class RealtimePlot` that the modelled methods read or write. -/
structure RealtimePlot where
  xData : List ℚ
  tempData : List ℚ
  pressureData : List ℚ
  humidityData : List ℚ
  timeIndex : Int
  pressureMin : ℚ
  pressureMax : ℚ
  running : Bool
  zone : String
  outputDir : String
  duration : Int
  stopFlag : Bool
deriving DecidableEq

/-- One reading handed to `update`: temperature, pressure, humidity. -/
structure Reading where
  temp : ℚ
  pressure : ℚ
  humidity : ℚ
deriving DecidableEq

/-- Constructor `RealtimePlot::RealtimePlot(zone, outputDir, duration)`: the member
initialisers, then the four `resize(maxPoints, 0)` calls of the body, which on the
empty vectors produce `maxPoints` zeros each. -/
def RealtimePlot.new (zone outputDir : String) (duration : Int) : RealtimePlot :=
  { xData := List.replicate maxPoints 0
    tempData := List.replicate maxPoints 0
    pressureData := List.replicate maxPoints 0
    humidityData := List.replicate maxPoints 0
    timeIndex := 0
    pressureMin := 0
    pressureMax := 0
    running := false
    zone := zone
    outputDir := outputDir
    duration := duration
    stopFlag := false }

/-- First block of `update`: `if (xData.size() >= maxPoints)` erase the first element of
each of the four vectors. -/
def RealtimePlot.evict (s : RealtimePlot) : RealtimePlot :=
  if maxPoints ≤ s.xData.length then
    { s with
      xData := s.xData.tail
      tempData := s.tempData.tail
      pressureData := s.pressureData.tail
      humidityData := s.humidityData.tail }
  else s

/-- Second block of `update`: the four `push_back` calls, `timeIndex++` included. -/
def RealtimePlot.push (s : RealtimePlot) (temp pressure humidity : ℚ) : RealtimePlot :=
  { s with
    xData := s.xData ++ [(s.timeIndex : ℚ)]
    tempData := s.tempData ++ [temp]
    pressureData := s.pressureData ++ [pressure]
    humidityData := s.humidityData ++ [humidity]
    timeIndex := s.timeIndex + 1 }

/-- Third block of `update`: `if (pressureMin == 0 && pressureMax == 0)` set the pressure
scale to `pressure - 50`, `pressure + 50`. -/
def RealtimePlot.adaptScale (s : RealtimePlot) (pressure : ℚ) : RealtimePlot :=
  if s.pressureMin = 0 ∧ s.pressureMax = 0 then
    { s with pressureMin := pressure - 50, pressureMax := pressure + 50 }
  else s

/-- Method `RealtimePlot::update(temp, pressure, humidity)`. -/
def RealtimePlot.update (s : RealtimePlot) (temp pressure humidity : ℚ) : RealtimePlot :=
  ((s.evict).push temp pressure humidity).adaptScale pressure

/-- A sequence of `update` calls, one per reading, in order. -/
def RealtimePlot.updates (s : RealtimePlot) (rs : List Reading) : RealtimePlot :=
  rs.foldl (fun st r => st.update r.temp r.pressure r.humidity) s

/-- Method `RealtimePlot::Start`: `running = true;` (the worker thread then runs `Calc`). -/
def RealtimePlot.Start (s : RealtimePlot) : RealtimePlot :=
  { s with running := true }

/-- Method `RealtimePlot::Stop`: `running = false; stopFlag = true;` (then joins). -/
def RealtimePlot.Stop (s : RealtimePlot) : RealtimePlot :=
  { s with running := false, stopFlag := true }

/-! ## Regular expressions (ECMAScript backtracking, the fragment the two patterns use) -/

/-- Abstract syntax of the patterns passed to `std::regex`. -/
inductive Regex where
  /-- One character of a class: a literal, `\d`, `\s`, a bracket expression. -/
  | cls (p : Char → Bool)
  /-- Concatenation. -/
  | seq (a b : Regex)
  /-- Alternation `a|b`, left alternative first. -/
  | alt (a b : Regex)
  /-- Greedy `a?`. -/
  | opt (a : Regex)
  /-- Greedy `c+` over a character class. -/
  | plus (p : Char → Bool)
  /-- Assertion `^`. -/
  | bol
  /-- Assertion `$`. -/
  | eol

/-- Greedy `c+` followed by the continuation `k`: take one more character of the class
when possible, and only when that fails hand the rest to `k`. -/
def plusLoop {α : Type} (p : Char → Bool) (k : List Char → Option α) : List Char → Option α
  | [] => none
  | c :: t =>
    if p c then
      match plusLoop p k t with
      | some x => some x
      | none => k t
    else none

/-- Backtracking matcher in continuation-passing style: `run total r s k` matches `r` at the
front of the remaining input `s` and passes what is left to `k`, trying the alternatives
in priority order until `k` accepts. `total` is the length of the whole subject, so that
`^` can tell whether `s` is at its beginning. -/
def Regex.run {α : Type} (total : Nat) : Regex → List Char → (List Char → Option α) → Option α
  | .cls p, s, k =>
    match s with
    | [] => none
    | c :: t => if p c then k t else none
  | .seq a b, s, k => Regex.run total a s (fun t => Regex.run total b t k)
  | .alt a b, s, k =>
    match Regex.run total a s k with
    | some x => some x
    | none => Regex.run total b s k
  | .opt a, s, k =>
    match Regex.run total a s k with
    | some x => some x
    | none => k s
  | .plus p, s, k => plusLoop p k s
  | .bol, s, k => if s.length = total then k s else none
  | .eol, s, k => if s = [] then k s else none

/-- Function `std::regex_match(subject, r)`: the whole subject is matched by `r`. -/
def regex_match (subject : List Char) (r : Regex) : Bool :=
  (Regex.run subject.length r subject (fun t => if t = [] then some () else none)).isSome

/-- Literal character. -/
def chr (c : Char) : Regex := .cls (fun x => x == c)

/-- Bracket range `[lo-hi]`. -/
def inRange (lo hi : Char) (x : Char) : Bool := decide (lo ≤ x) && decide (x ≤ hi)

/-- Class `\d`, the same as `[0-9]`. -/
def isDigit (x : Char) : Bool := inRange '0' '9' x

/-- Class `\s`: space, `\t`, `\n`, `\v`, `\f`, `\r`. -/
def isSpace (x : Char) : Bool := x == ' ' || (decide (9 ≤ x.toNat) && decide (x.toNat ≤ 13))

/-! ## fetchData -/

/-- Group 1 of the pattern of `fetchData`: `(\d+\.\d+)`. -/
def reNumber : Regex := .seq (.plus isDigit) (.seq (chr '.') (.plus isDigit))

/-- Rest of the pattern of `fetchData`: `\s(deg|Pa|rH)`. -/
def reUnit : Regex :=
  .seq (.cls isSpace)
    (.alt (.seq (chr 'd') (.seq (chr 'e') (chr 'g')))
      (.alt (.seq (chr 'P') (chr 'a')) (.seq (chr 'r') (chr 'H'))))

/-- One attempt of the pattern `(\d+\.\d+)\s(deg|Pa|rH)` at the front of `s`. On success the
result is `match[1].str()` (what group 1 consumed) and `match.suffix()` (what is left
after the whole match). -/
def matchHere (s : List Char) : Option (List Char × List Char) :=
  Regex.run s.length reNumber s (fun t =>
    Regex.run s.length reUnit t (fun u => some (s.take (s.length - t.length), u)))

/-- Function `std::regex_search(searchStart, end, match, re)` for the pattern of `fetchData`:
the start positions are tried from left to right, the end of the text included. -/
def regex_search : List Char → Option (List Char × List Char)
  | [] => matchHere []
  | c :: t =>
    match matchHere (c :: t) with
    | some r => some r
    | none => regex_search t

/-- Value of a decimal digit character. -/
def digitVal (c : Char) : Nat := c.toNat - 48

/-- Value of a string of decimal digits. -/
def decimalValue (ds : List Char) : Nat := ds.foldl (fun n c => 10 * n + digitVal c) 0

/-- The decimal value `std::stod` reads from the texts group 1 can hold: the leading digits,
and when a `.` follows them, the digits after it as the fraction. No sign, exponent or
hexadecimal form can occur in group 1. The value is exact: the rounding to a `double`
is not modelled. -/
def numeralValue (s : List Char) : ℚ :=
  let ip := s.takeWhile isDigit
  match s.dropWhile isDigit with
  | '.' :: r =>
    let fr := r.takeWhile isDigit
    (decimalValue ip : ℚ) + (decimalValue fr : ℚ) / (10 : ℚ) ^ fr.length
  | _ => (decimalValue ip : ℚ)

/-- Exceptions of the standard library that the modelled code can raise. -/
inductive StdException where
  /-- Exception `std::out_of_range`, thrown by `std::stod`. -/
  | out_of_range
deriving DecidableEq

/-- From this value on a decimal rounds to infinity as a `double`: the largest finite
`double`, `2^1024 - 2^971`, plus half the distance to the next power of two. -/
def overflowBound : ℚ := 2 ^ 1024 - 2 ^ 970

/-- The smallest positive normal `double`, `2^(-1022)`. -/
def minNormal : ℚ := 1 / 2 ^ 1022

/-- Whether `strtod` sets `errno` to `ERANGE` on the exact value `v ≥ 0`: always when the
value overflows; for a non-zero value below the normal range the C standard leaves it
to the implementation, which is the parameter `tinyIsError`. -/
def rangeError (tinyIsError : ℚ → Bool) (v : ℚ) : Bool :=
  decide (overflowBound ≤ v) ||
    (decide (0 < v) && decide (v < minNormal) && tinyIsError v)

/-- Function `std::stod` on the texts group 1 can hold: it throws `std::out_of_range` when
`strtod` reports a range error and returns the value otherwise. (Group 1 starts with a
digit, so `std::invalid_argument` cannot occur.) -/
def stod (tinyIsError : ℚ → Bool) (s : List Char) : Except StdException ℚ :=
  if rangeError tinyIsError (numeralValue s) then .error .out_of_range
  else .ok (numeralValue s)

/-- The `while (regex_search(...))` loop of `fetchData` with a bound on the number of
iterations: each match pushes `stod(match[1].str())` and the search resumes at the
suffix. An exception of `stod` leaves the loop and the function. -/
def collectFuel (tinyIsError : ℚ → Bool) : Nat → List Char → Except StdException (List ℚ)
  | 0, _ => .ok []
  | fuel + 1, s =>
    match regex_search s with
    | none => .ok []
    | some (cap, rest) =>
      match stod tinyIsError cap with
      | .error e => .error e
      | .ok v =>
        match collectFuel tinyIsError fuel rest with
        | .error e => .error e
        | .ok vs => .ok (v :: vs)

/-- The vector `values` after the loop of `fetchData` on `response`, or the exception that
ended the loop. A match consumes at least one character, so `response.length + 1`
iterations are enough. -/
def collectValues (tinyIsError : ℚ → Bool) (response : List Char) :
    Except StdException (List ℚ) :=
  collectFuel tinyIsError (response.length + 1) response

/-- Extraction step of `fetchData` (from the `regex re` line on). The result is the returned
`bool` and the three reference parameters `temperature`, `pressure`, `humidity`
afterwards, or the exception that `stod` threw: nothing in `fetchData` catches it. -/
def extract (tinyIsError : ℚ → Bool) (response : List Char)
    (temperature pressure humidity : ℚ) : Except StdException (Bool × ℚ × ℚ × ℚ) :=
  match collectValues tinyIsError response with
  | .error e => .error e
  | .ok values =>
    if 3 ≤ values.length then
      .ok (true, values.getD 0 0, values.getD 1 0, values.getD 2 0)
    else
      .ok (false, temperature, pressure, humidity)

/-- Function `fetchData`. The transfer is an input: `none` when `curl_easy_init` fails or
`curl_easy_perform` does not return `CURLE_OK`, `some response` with the received text
otherwise. -/
def fetchData (tinyIsError : ℚ → Bool) (transfer : Option (List Char))
    (temperature pressure humidity : ℚ) : Except StdException (Bool × ℚ × ℚ × ℚ) :=
  match transfer with
  | none => .ok (false, temperature, pressure, humidity)
  | some response => extract tinyIsError response temperature pressure humidity

/-! ## Acquisition loop -/

/-- Outcome of one pass through the `while (running)` loop of `Calc`. -/
inductive LoopStep where
  /-- The loop was left (`running` false, or `break`) before `fetchData` was called. -/
  | exited (s : RealtimePlot)
  /-- The body ran to the `sleep_for`: `fetchData` was called once and returned. -/
  | fetched (s : RealtimePlot)
  /-- The one call of `fetchData` threw: nothing in `Calc` catches the exception, it leaves
  the thread function and the process is terminated. -/
  | threw (s : RealtimePlot)
deriving DecidableEq

/-- The plot object after a pass. -/
def LoopStep.plot : LoopStep → RealtimePlot
  | .exited s => s
  | .fetched s => s
  | .threw s => s

/-- Number of `fetchData` calls made in a pass. -/
def LoopStep.fetchCalls : LoopStep → Nat
  | .exited _ => 0
  | .fetched _ => 1
  | .threw _ => 1

/-- One pass through the loop of `RealtimePlot::Calc`. `elapsed` is the value of
`duration_cast<seconds>(now - start).count()`, `globalStopFlag` the value read from the
global atomic, `transfer` what the network delivers if `fetchData` is called. The
locals `temp, pressure, humidity` are uninitialised in the source and are read only
after `fetchData` has assigned them; they start as `0` here. -/
def RealtimePlot.calcStep (s : RealtimePlot) (tinyIsError : ℚ → Bool) (elapsed : Int)
    (globalStopFlag : Bool) (transfer : Option (List Char)) : LoopStep :=
  if s.running then
    if decide (s.duration ≤ elapsed) || s.stopFlag || globalStopFlag then
      .exited s
    else
      match fetchData tinyIsError transfer 0 0 0 with
      | .error _ => .threw s
      | .ok r => if r.1 then .fetched (s.update r.2.1 r.2.2.1 r.2.2.2) else .fetched s
  else .exited s

/-- What one pass of the loop observes from outside the thread. -/
structure Tick where
  /-- Whether `Stop()` was called by another thread since the previous pass. -/
  stopCalled : Bool
  elapsed : Int
  globalStopFlag : Bool
  transfer : Option (List Char)

/-- Result of running the loop over a finite schedule of passes. -/
structure CalcResult where
  plot : RealtimePlot
  /-- Number of `fetchData` calls made. -/
  fetches : Nat
  /-- The loop was left within the schedule. -/
  returned : Bool
  /-- An exception left the thread function. -/
  terminated : Bool
deriving DecidableEq

/-- Method `RealtimePlot::Calc` against a schedule of passes. -/
def RealtimePlot.Calc (s : RealtimePlot) (tinyIsError : ℚ → Bool) : List Tick → CalcResult
  | [] => { plot := s, fetches := 0, returned := false, terminated := false }
  | t :: ts =>
    match (if t.stopCalled then s.Stop else s).calcStep tinyIsError t.elapsed t.globalStopFlag
      t.transfer with
    | .exited s1 => { plot := s1, fetches := 0, returned := true, terminated := false }
    | .threw s1 => { plot := s1, fetches := 1, returned := false, terminated := true }
    | .fetched s1 =>
      let r := RealtimePlot.Calc s1 tinyIsError ts
      { plot := r.plot, fetches := r.fetches + 1, returned := r.returned,
        terminated := r.terminated }

/-! ## CSV export -/

/-- Method `RealtimePlot::writeCSV`, as the sequence of lines sent to the file: `none` when
`file.is_open()` is false. `fmt` is the stream formatting of a `double`. -/
def RealtimePlot.writeCSV (s : RealtimePlot) (fmt : ℚ → String) (fileOpens : Bool) :
    Option (List String) :=
  if fileOpens then
    some ("Time,Temperature,Pressure,Humidity\n" ::
      (List.range s.xData.length).map (fun i =>
        fmt (s.xData.getD i 0) ++ "," ++ fmt (s.tempData.getD i 0) ++ "," ++
          fmt (s.pressureData.getD i 0) ++ "," ++ fmt (s.humidityData.getD i 0) ++ "\n"))
  else none

/-! ## Plots -/

/-- One series drawn in the live window: the `SubPlot` vertical offset, the ranges given to
`SetRanges(0, duration, yMin, yMax)` and the arguments of the `Plot` call. -/
structure Panel where
  dy : ℚ
  xMax : ℚ
  yMin : ℚ
  yMax : ℚ
  xs : List ℚ
  ys : List ℚ
  pen : String
deriving DecidableEq

/-- Method `RealtimePlot::Draw`, as the panels it draws, in order: nothing when
`xData.empty()`, else temperature, pressure and humidity. -/
def RealtimePlot.Draw (s : RealtimePlot) : List Panel :=
  if s.xData.isEmpty then []
  else
    [ { dy := 0, xMax := (s.duration : ℚ), yMin := 20, yMax := 45,
        xs := s.xData, ys := s.tempData, pen := "r-5" },
      { dy := 3 / 2, xMax := (s.duration : ℚ), yMin := s.pressureMin, yMax := s.pressureMax,
        xs := s.xData, ys := s.pressureData, pen := "b-5" },
      { dy := 3, xMax := (s.duration : ℚ), yMin := 10, yMax := 70,
        xs := s.xData, ys := s.humidityData, pen := "g-5" } ]

/-- One image written by `plotGraph`: the file name, the `y` label, the ranges given to
`SetRanges(0, duration, yMin, yMax)` and the arguments of the `Plot` call. -/
structure GraphFile where
  filename : String
  title : String
  xMax : ℚ
  yMin : ℚ
  yMax : ℚ
  xs : List ℚ
  ys : List ℚ
  color : String
deriving DecidableEq

/-- Method `RealtimePlot::plotGraph(title, filename, data, color, yMin, yMax)`. -/
def RealtimePlot.plotGraph (s : RealtimePlot) (title filename : String) (data : List ℚ)
    (color : String) (yMin yMax : ℚ) : GraphFile :=
  { filename := filename, title := title, xMax := (s.duration : ℚ), yMin := yMin,
    yMax := yMax, xs := s.xData, ys := data, color := color }

/-- Method `RealtimePlot::plotFinalGraphs`: the three `plotGraph` calls, in order. -/
def RealtimePlot.plotFinalGraphs (s : RealtimePlot) : List GraphFile :=
  [ s.plotGraph "Temperature" (s.outputDir ++ "/realtime_plot_temp_" ++ s.zone ++ ".png")
      s.tempData "r" 20 45,
    s.plotGraph "Pressure" (s.outputDir ++ "/realtime_plot_pressure_" ++ s.zone ++ ".png")
      s.pressureData "b" s.pressureMin s.pressureMax,
    s.plotGraph "Humidity" (s.outputDir ++ "/realtime_plot_humidity_" ++ s.zone ++ ".png")
      s.humidityData "g" 30 70 ]

/-! ## isValidIPAddress -/

/-- Sub-pattern `(25[0-5]|2[0-4][0-9]|[01]?[0-9][0-9]?)`. -/
def reOctet : Regex :=
  .alt (.seq (chr '2') (.seq (chr '5') (.cls (inRange '0' '5'))))
    (.alt (.seq (chr '2') (.seq (.cls (inRange '0' '4')) (.cls (inRange '0' '9'))))
      (.seq (.opt (.cls (fun x => x == '0' || x == '1')))
        (.seq (.cls (inRange '0' '9')) (.opt (.cls (inRange '0' '9'))))))

/-- Sub-pattern `((25[0-5]|2[0-4][0-9]|[01]?[0-9][0-9]?)\.)`. -/
def reOctetDot : Regex := .seq reOctet (chr '.')

/-- The pattern of `isValidIPAddress`, the `{3}` written out. -/
def reIPAddress : Regex :=
  .seq .bol (.seq (.seq reOctetDot (.seq reOctetDot reOctetDot)) (.seq reOctet .eol))

/-- Function `isValidIPAddress`. -/
def isValidIPAddress (ipAddress : List Char) : Bool :=
  regex_match ipAddress reIPAddress

/-! ## Specification-side notions -/

/-- What a pattern denotes: `Regex.Sem total r s rest` says that `r` can match a prefix of
`s` leaving `rest`, when the whole subject has length `total`. -/
def Regex.Sem (total : Nat) : Regex → List Char → List Char → Prop
  | .cls p, s, rest => ∃ c, p c = true ∧ s = c :: rest
  | .seq a b, s, rest => ∃ t, Regex.Sem total a s t ∧ Regex.Sem total b t rest
  | .alt a b, s, rest => Regex.Sem total a s rest ∨ Regex.Sem total b s rest
  | .opt a, s, rest => Regex.Sem total a s rest ∨ rest = s
  | .plus p, s, rest => ∃ w, w ≠ [] ∧ (∀ c ∈ w, p c = true) ∧ s = w ++ rest
  | .bol, s, rest => rest = s ∧ s.length = total
  | .eol, s, rest => rest = s ∧ s = []

/-- The three unit markers. -/
def unitMarkers : List (List Char) := [['d', 'e', 'g'], ['P', 'a'], ['r', 'H']]

/-- A match of the number-plus-unit pattern stands at the front of `s`: digits, `.`, digits,
one whitespace character, then `deg`, `Pa` or `rH`; `v` is the decimal value of the
number and `rest` the text after the match. -/
def TokenAt (s : List Char) (v : ℚ) (rest : List Char) : Prop :=
  ∃ a b w u, a ≠ [] ∧ (∀ c ∈ a, isDigit c = true) ∧ b ≠ [] ∧ (∀ c ∈ b, isDigit c = true) ∧
    isSpace w = true ∧ u ∈ unitMarkers ∧
    v = (decimalValue a : ℚ) + (decimalValue b : ℚ) / (10 : ℚ) ^ b.length ∧
    s = a ++ '.' :: b ++ w :: u ++ rest

/-- The successive non-overlapping left-to-right matches of the pattern in a text, by their
values: the first match is the one that starts leftmost, the next ones are those of the
text after it. -/
inductive Scan : List Char → List ℚ → Prop where
  /-- No match starts anywhere in the text. -/
  | none (text : List Char)
      (h : ∀ pre s v rest, text = pre ++ s → ¬ TokenAt s v rest) : Scan text []
  /-- A match starts after `pre`, none starts earlier, and the scan goes on after it. -/
  | next (text pre s : List Char) (v : ℚ) (rest : List Char) (vs : List ℚ)
      (hsplit : text = pre ++ s) (htok : TokenAt s v rest)
      (hleft : ∀ pre1 s1 v1 rest1, text = pre1 ++ s1 → pre1.length < pre.length →
        ¬ TokenAt s1 v1 rest1)
      (hrest : Scan rest vs) : Scan text (v :: vs)

/-- The values of the successive matches of the pattern, computed: search, take the value of
the match, go on after it, at most `fuel` times. -/
def matchValuesFuel : Nat → List Char → List ℚ
  | 0, _ => []
  | fuel + 1, s =>
    match regex_search s with
    | none => []
    | some (cap, rest) => numeralValue cap :: matchValuesFuel fuel rest

/-- The values of all the successive matches of the pattern in a text. -/
def matchValues (text : List Char) : List ℚ :=
  matchValuesFuel (text.length + 1) text

/-- The fields of a text separated by single dots. -/
def splitDots : List Char → List (List Char)
  | [] => [[]]
  | c :: t =>
    if c = '.' then [] :: splitDots t
    else
      match splitDots t with
      | [] => [[c]]
      | f :: fs => (c :: f) :: fs

/-- A field of a dotted quad: 1 to 3 decimal digits with a value in 0..255. -/
def isOctetField (f : List Char) : Bool :=
  decide (1 ≤ f.length) && decide (f.length ≤ 3) && f.all isDigit && decide (decimalValue f ≤ 255)

/-- Dotted-quad IPv4 address: exactly four fields separated by single dots, nothing before
or after, each field an octet. -/
def isDottedQuad (s : List Char) : Bool :=
  decide ((splitDots s).length = 4) && (splitDots s).all isOctetField

/-- Each entry is exactly 1 greater than the entry before it. -/
def isGapFree : List ℚ → Bool
  | a :: b :: t => decide (b = a + 1) && isGapFree (b :: t)
  | _ => true

/-! ## The sample buffer -/

section Buffer

variable (s : RealtimePlot) (temp pressure humidity : ℚ)

@[simp] theorem update_xData :
    (s.update temp pressure humidity).xData = s.evict.xData ++ [(s.timeIndex : ℚ)] := by
  unfold RealtimePlot.update RealtimePlot.adaptScale RealtimePlot.push RealtimePlot.evict
  split <;> split <;> rfl

@[simp] theorem update_tempData :
    (s.update temp pressure humidity).tempData = s.evict.tempData ++ [temp] := by
  unfold RealtimePlot.update RealtimePlot.adaptScale RealtimePlot.push
  split <;> rfl

@[simp] theorem update_pressureData :
    (s.update temp pressure humidity).pressureData = s.evict.pressureData ++ [pressure] := by
  unfold RealtimePlot.update RealtimePlot.adaptScale RealtimePlot.push
  split <;> rfl

@[simp] theorem update_humidityData :
    (s.update temp pressure humidity).humidityData = s.evict.humidityData ++ [humidity] := by
  unfold RealtimePlot.update RealtimePlot.adaptScale RealtimePlot.push
  split <;> rfl

@[simp] theorem update_timeIndex :
    (s.update temp pressure humidity).timeIndex = s.timeIndex + 1 := by
  unfold RealtimePlot.update RealtimePlot.adaptScale RealtimePlot.push RealtimePlot.evict
  split <;> split <;> rfl

theorem update_pressureMin :
    (s.update temp pressure humidity).pressureMin =
      if s.pressureMin = 0 ∧ s.pressureMax = 0 then pressure - 50 else s.pressureMin := by
  unfold RealtimePlot.update RealtimePlot.adaptScale RealtimePlot.push RealtimePlot.evict
  split <;> split <;> simp_all

theorem update_pressureMax :
    (s.update temp pressure humidity).pressureMax =
      if s.pressureMin = 0 ∧ s.pressureMax = 0 then pressure + 50 else s.pressureMax := by
  unfold RealtimePlot.update RealtimePlot.adaptScale RealtimePlot.push RealtimePlot.evict
  split <;> split <;> simp_all

theorem evict_series (h : s.xData.length = maxPoints) :
    s.evict.xData = s.xData.tail ∧ s.evict.tempData = s.tempData.tail ∧
      s.evict.pressureData = s.pressureData.tail ∧
      s.evict.humidityData = s.humidityData.tail := by
  unfold RealtimePlot.evict
  rw [if_pos (le_of_eq h.symm)]
  exact ⟨rfl, rfl, rfl, rfl⟩

theorem updates_snoc (rs : List Reading) (r : Reading) :
    s.updates (rs ++ [r]) = (s.updates rs).update r.temp r.pressure r.humidity := by
  simp [RealtimePlot.updates, List.foldl_append]

end Buffer

/-- Sliding a full window: dropping one more element and appending at the end. -/
theorem window_slide {α : Type} (pad l : List α) (x : α) (n : Nat) (hn : l.length = n)
    (hpad : 0 < pad.length) :
    ((pad ++ l).drop n).tail ++ [x] = (pad ++ (l ++ [x])).drop (n + 1) := by
  have h : (pad ++ (l ++ [x])).drop (n + 1) = (pad ++ l).drop (n + 1) ++ [x] := by
    rw [← List.append_assoc]
    exact List.drop_append_of_le_length (by rw [List.length_append, hn]; omega)
  rw [List.tail_drop, h]

theorem window_length {α : Type} (pad l : List α) (n : Nat) (hn : l.length = n) :
    ((pad ++ l).drop n).length = pad.length := by
  simp [hn]

/-- Contents of the four series and of the counter after any sequence of `update` calls on
a fresh plot: the window of the last `maxPoints` entries of the initial zeros followed by
everything appended. -/
theorem updates_new_contents (zone outputDir : String) (duration : Int) (rs : List Reading) :
    let s := (RealtimePlot.new zone outputDir duration).updates rs
    s.timeIndex = rs.length ∧
    s.xData = (List.replicate maxPoints (0 : ℚ) ++
        List.map (fun i : Nat => (i : ℚ)) (List.range rs.length)).drop rs.length ∧
    s.tempData = (List.replicate maxPoints (0 : ℚ) ++ rs.map Reading.temp).drop rs.length ∧
    s.pressureData =
      (List.replicate maxPoints (0 : ℚ) ++ rs.map Reading.pressure).drop rs.length ∧
    s.humidityData =
      (List.replicate maxPoints (0 : ℚ) ++ rs.map Reading.humidity).drop rs.length := by
  induction rs using List.reverseRecOn with
  | nil => simp [RealtimePlot.updates, RealtimePlot.new]
  | append_singleton rs r ih =>
    obtain ⟨hti, hx, ht, hp, hh⟩ := ih
    have hlen : ((RealtimePlot.new zone outputDir duration).updates rs).xData.length
        = maxPoints := by
      rw [hx, window_length _ _ _ (by simp)]
      simp
    obtain ⟨ex, et, ep, eh⟩ := evict_series _ hlen
    simp only [updates_snoc, update_xData, update_tempData, update_pressureData,
      update_humidityData, update_timeIndex, ex, et, ep, eh, hx, ht, hp, hh, hti,
      List.length_append, List.length_singleton, List.map_append, List.map_singleton,
      List.range_succ]
    refine ⟨by push_cast; ring, ?_, ?_, ?_, ?_⟩
    · have := window_slide (List.replicate maxPoints (0 : ℚ))
        (List.map (fun i : Nat => (i : ℚ)) (List.range rs.length)) (rs.length : ℚ) rs.length
        (by simp) (by rw [List.length_replicate]; decide)
      simpa using this
    · exact window_slide _ _ _ _ (by simp) (by rw [List.length_replicate]; decide)
    · exact window_slide _ _ _ _ (by simp) (by rw [List.length_replicate]; decide)
    · exact window_slide _ _ _ _ (by simp) (by rw [List.length_replicate]; decide)

theorem maxPoints_eq : maxPoints = 300 := rfl

theorem updates_new_lengths (zone outputDir : String) (duration : Int) (rs : List Reading) :
    let s := (RealtimePlot.new zone outputDir duration).updates rs
    s.xData.length = maxPoints ∧ s.tempData.length = maxPoints ∧
      s.pressureData.length = maxPoints ∧ s.humidityData.length = maxPoints := by
  obtain ⟨-, hx, ht, hp, hh⟩ := updates_new_contents zone outputDir duration rs
  simp only at hx ht hp hh ⊢
  rw [hx, ht, hp, hh]
  refine ⟨?_, ?_, ?_, ?_⟩ <;>
    (rw [window_length _ _ _ (by simp)]; exact List.length_replicate _ _)

/-- C1: for every sequence of `update` calls on a freshly constructed `RealtimePlot` (the
empty sequence is the state at construction), each of the four series `xData`,
`tempData`, `pressureData`, `humidityData` has length at most `maxPoints = 300`. -/
theorem series_length_le_maxPoints (zone outputDir : String) (duration : Int)
    (rs : List Reading) :
    let s := (RealtimePlot.new zone outputDir duration).updates rs
    maxPoints = 300 ∧ s.xData.length ≤ maxPoints ∧ s.tempData.length ≤ maxPoints ∧
      s.pressureData.length ≤ maxPoints ∧ s.humidityData.length ≤ maxPoints := by
  obtain ⟨hx, ht, hp, hh⟩ := updates_new_lengths zone outputDir duration rs
  exact ⟨rfl, le_of_eq hx, le_of_eq ht, le_of_eq hp, le_of_eq hh⟩

theorem drop_pad_append {α : Type} (pad l : List α) (n k : Nat) (hpad : pad.length = n) :
    (pad ++ l).drop (n + k) = l.drop k := by
  rw [List.drop_append_eq_append_drop, List.drop_eq_nil_of_le (by omega), List.nil_append]
  congr 1
  omega

theorem drop_range_cast (n k : Nat) :
    (List.map (fun i : Nat => (i : ℚ)) (List.range (n + k))).drop k =
      List.map (fun i : Nat => ((k + i : Nat) : ℚ)) (List.range n) := by
  rw [← List.map_drop, Nat.add_comm n k, List.range_add, List.drop_append_eq_append_drop]
  simp [List.map_map, Function.comp_def]

/-- C2: for every `k` and every sequence of `maxPoints + k` `update` calls on a freshly
constructed `RealtimePlot` (`maxPoints = 300`), the buffer holds exactly the last
`maxPoints` appended samples in the order they were appended: `xData` is
`k, k+1, ..., k+299` and the three value series are the readings from the `k`-th on. -/
theorem buffer_holds_last_maxPoints (zone outputDir : String) (duration : Int) (k : Nat)
    (rs : List Reading) (hlen : rs.length = maxPoints + k) :
    let s := (RealtimePlot.new zone outputDir duration).updates rs
    s.xData = List.map (fun i : Nat => ((k + i : Nat) : ℚ)) (List.range maxPoints) ∧
    s.tempData = (rs.drop k).map Reading.temp ∧
    s.pressureData = (rs.drop k).map Reading.pressure ∧
    s.humidityData = (rs.drop k).map Reading.humidity ∧
    (rs.drop k).length = maxPoints := by
  obtain ⟨-, hx, ht, hp, hh⟩ := updates_new_contents zone outputDir duration rs
  simp only at hx ht hp hh ⊢
  rw [hx, ht, hp, hh, hlen]
  have hpad : (List.replicate maxPoints (0 : ℚ)).length = maxPoints := List.length_replicate _ _
  refine ⟨?_, ?_, ?_, ?_, ?_⟩
  · rw [drop_pad_append _ _ _ _ hpad, drop_range_cast]
  · rw [drop_pad_append _ _ _ _ hpad, List.map_drop]
  · rw [drop_pad_append _ _ _ _ hpad, List.map_drop]
  · rw [drop_pad_append _ _ _ _ hpad, List.map_drop]
  · rw [List.length_drop, hlen]
    omega

/-- Witness of C2 at `k = 1`: 301 updates with the readings `(1, 2, 3)`. -/
theorem buffer_holds_last_maxPoints_witness :
    (List.replicate 301 (Reading.mk 1 2 3)).length = maxPoints + 1 ∧
    ((RealtimePlot.new "lab" "out" 60).updates (List.replicate 301 (Reading.mk 1 2 3))).xData
      = List.map (fun i : Nat => ((1 + i : Nat) : ℚ)) (List.range maxPoints) :=
  ⟨by rw [List.length_replicate]; decide,
    (buffer_holds_last_maxPoints "lab" "out" 60 1 (List.replicate 301 (Reading.mk 1 2 3))
      (by rw [List.length_replicate]; decide)).1⟩

/-! ## The pressure display range -/

theorem updates_cons (s : RealtimePlot) (r : Reading) (rs : List Reading) :
    s.updates (r :: rs) = (s.update r.temp r.pressure r.humidity).updates rs := rfl

/-- Once the pressure range is not `(0, 0)`, no `update` changes it. -/
theorem updates_keep_scale (rs : List Reading) :
    ∀ s : RealtimePlot, ¬ (s.pressureMin = 0 ∧ s.pressureMax = 0) →
      (s.updates rs).pressureMin = s.pressureMin ∧
        (s.updates rs).pressureMax = s.pressureMax := by
  induction rs with
  | nil => intro s _; exact ⟨rfl, rfl⟩
  | cons r rs ih =>
    intro s hs
    have hmin := update_pressureMin s r.temp r.pressure r.humidity
    have hmax := update_pressureMax s r.temp r.pressure r.humidity
    rw [if_neg hs] at hmin hmax
    have h1 := ih (s.update r.temp r.pressure r.humidity) (by rw [hmin, hmax]; exact hs)
    rw [updates_cons, h1.1, h1.2, hmin, hmax]
    exact ⟨rfl, rfl⟩

/-- C6: for every non-empty sequence of `update` calls on a freshly constructed
`RealtimePlot` whose first pressure value is `p`, the pressure display range is
`(p - 50, p + 50)` after the first update and after every later one, whatever the later
pressure values are. -/
theorem pressure_range_fixed_by_first_reading (zone outputDir : String) (duration : Int)
    (r : Reading) (rs : List Reading) :
    let s := (RealtimePlot.new zone outputDir duration).updates (r :: rs)
    s.pressureMin = r.pressure - 50 ∧ s.pressureMax = r.pressure + 50 := by
  have hmin := update_pressureMin (RealtimePlot.new zone outputDir duration)
    r.temp r.pressure r.humidity
  have hmax := update_pressureMax (RealtimePlot.new zone outputDir duration)
    r.temp r.pressure r.humidity
  rw [if_pos ⟨rfl, rfl⟩] at hmin hmax
  have hne : ¬ (((RealtimePlot.new zone outputDir duration).update
      r.temp r.pressure r.humidity).pressureMin = 0 ∧
      ((RealtimePlot.new zone outputDir duration).update
        r.temp r.pressure r.humidity).pressureMax = 0) := by
    rw [hmin, hmax]
    rintro ⟨h1, h2⟩
    linarith
  have h := updates_keep_scale rs _ hne
  simp only [updates_cons]
  rw [h.1, h.2, hmin, hmax]
  exact ⟨rfl, rfl⟩

/-! ## Time indices and CSV rows -/

theorem xData_starts_with_padding (zone outputDir : String) (duration : Int)
    (rs : List Reading) (h : rs.length < maxPoints) :
    ∃ rest, ((RealtimePlot.new zone outputDir duration).updates rs).xData = 0 :: 0 :: rest := by
  obtain ⟨-, hx, -⟩ := updates_new_contents zone outputDir duration rs
  rw [hx]
  obtain ⟨m, hm⟩ : ∃ m, maxPoints = rs.length + (m + 1) := ⟨maxPoints - rs.length - 1, by omega⟩
  have hdrop : ∀ Y : List ℚ, (List.replicate rs.length (0 : ℚ) ++ Y).drop rs.length = Y := by
    intro Y
    have := List.drop_left (List.replicate rs.length (0 : ℚ)) Y
    rwa [List.length_replicate] at this
  rw [hm, List.replicate_add, List.append_assoc, hdrop, List.replicate_succ]
  cases m with
  | succ m => exact ⟨_, by rw [List.replicate_succ]; rfl⟩
  | zero =>
    obtain ⟨j, hj⟩ : ∃ j, rs.length = j + 1 := ⟨rs.length - 1, by have := maxPoints_eq; omega⟩
    rw [hj, List.range_succ_eq_map]
    exact ⟨List.map (fun i : Nat => (i : ℚ)) (List.map Nat.succ (List.range j)), by simp⟩

theorem isGapFree_range (n : Nat) :
    ∀ k : Nat, isGapFree (List.map (fun i : Nat => ((k + i : Nat) : ℚ)) (List.range n)) = true := by
  induction n with
  | zero => intro k; rfl
  | succ n ih =>
    intro k
    rw [List.range_succ_eq_map, List.map_cons, List.map_map]
    have hshift : ((fun i : Nat => ((k + i : Nat) : ℚ)) ∘ Nat.succ)
        = fun i : Nat => ((k + 1 + i : Nat) : ℚ) := by
      funext i
      simp only [Function.comp, Nat.succ_eq_add_one]
      congr 1
      omega
    rw [hshift]
    have h := ih (k + 1)
    cases n with
    | zero => rfl
    | succ n =>
      rw [List.range_succ_eq_map, List.map_cons] at h ⊢
      rw [isGapFree, h]
      simp

/-- The time indices in the buffer are gap-free exactly from the 300th update on. -/
theorem xData_gap_free_iff (zone outputDir : String) (duration : Int) (rs : List Reading) :
    isGapFree ((RealtimePlot.new zone outputDir duration).updates rs).xData = true ↔
      maxPoints ≤ rs.length := by
  constructor
  · intro hg
    by_contra hlt
    obtain ⟨rest, hx⟩ := xData_starts_with_padding zone outputDir duration rs (by omega)
    rw [hx] at hg
    simp [isGapFree] at hg
  · intro hle
    obtain ⟨k, hk⟩ : ∃ k, rs.length = maxPoints + k := ⟨rs.length - maxPoints, by omega⟩
    obtain ⟨-, hx, -⟩ := updates_new_contents zone outputDir duration rs
    rw [hx, hk, drop_pad_append _ _ _ _ (List.length_replicate _ _), drop_range_cast]
    exact isGapFree_range _ _

/-- Whatever the number of updates, `writeCSV` writes the header and `maxPoints` data rows. -/
theorem writeCSV_row_count (zone outputDir : String) (duration : Int) (rs : List Reading)
    (fmt : ℚ → String) :
    ∃ rows, ((RealtimePlot.new zone outputDir duration).updates rs).writeCSV fmt true
        = some ("Time,Temperature,Pressure,Humidity\n" :: rows) ∧ rows.length = maxPoints := by
  refine ⟨_, by rw [RealtimePlot.writeCSV, if_pos rfl], ?_⟩
  rw [List.length_map, List.length_range]
  exact (updates_new_lengths zone outputDir duration rs).1

/-- C7 (evaluation of the code): right after construction `xData` is `maxPoints` zeros, so
its entries are not strictly increasing; the same holds after two updates, where the
buffer still starts with padding zeros. -/
theorem fresh_xData_not_gap_free :
    (RealtimePlot.new "lab" "out" 60).xData = List.replicate 300 0 ∧
    isGapFree (RealtimePlot.new "lab" "out" 60).xData = false ∧
    isGapFree ((RealtimePlot.new "lab" "out" 60).updates
      [Reading.mk 1 2 3, Reading.mk 1 2 3]).xData = false ∧
    ((RealtimePlot.new "lab" "out" 60).updates
      [Reading.mk 1 2 3, Reading.mk 1 2 3]).xData.drop 297 = [0, 0, 1] := by
  refine ⟨rfl, ?_, ?_, ?_⟩ <;> decide!

/-- C8 (evaluation of the code): after one update on a fresh plot, `writeCSV` writes the
header and then 300 data rows, not 1; the first data row is made of zeros. -/
theorem writeCSV_rows_after_one_update (fmt : ℚ → String) :
    ∃ rows, ((RealtimePlot.new "lab" "out" 60).updates
        [Reading.mk (43 / 2) (5066 / 5) 45]).writeCSV fmt true
        = some ("Time,Temperature,Pressure,Humidity\n" :: rows) ∧
      rows.length = 300 ∧
      rows.head? = some (fmt 0 ++ "," ++ fmt 0 ++ "," ++ fmt 0 ++ "," ++ fmt 0 ++ "\n") := by
  refine ⟨_, by rw [RealtimePlot.writeCSV, if_pos rfl], ?_, ?_⟩
  · rw [List.length_map, List.length_range]
    exact (updates_new_lengths "lab" "out" 60 _).1
  · have hlen := (updates_new_lengths "lab" "out" 60 [Reading.mk (43 / 2) (5066 / 5) 45]).1
    simp only at hlen
    rw [hlen]
    rw [show maxPoints = 299 + 1 from rfl, List.range_succ_eq_map, List.map_cons,
      List.head?_cons]
    have hx : ((RealtimePlot.new "lab" "out" 60).updates
        [Reading.mk (43 / 2) (5066 / 5) 45]).xData.getD 0 0 = 0 := by decide!
    have ht : ((RealtimePlot.new "lab" "out" 60).updates
        [Reading.mk (43 / 2) (5066 / 5) 45]).tempData.getD 0 0 = 0 := by decide!
    have hp : ((RealtimePlot.new "lab" "out" 60).updates
        [Reading.mk (43 / 2) (5066 / 5) 45]).pressureData.getD 0 0 = 0 := by decide!
    have hh : ((RealtimePlot.new "lab" "out" 60).updates
        [Reading.mk (43 / 2) (5066 / 5) 45]).humidityData.getD 0 0 = 0 := by decide!
    rw [hx, ht, hp, hh]

/-! ## The backtracking matcher against what a pattern denotes -/

theorem plusLoop_sound {α : Type} (p : Char → Bool) (k : List Char → Option α) (x : α) :
    ∀ s : List Char, plusLoop p k s = some x →
      ∃ w rest, w ≠ [] ∧ (∀ c ∈ w, p c = true) ∧ s = w ++ rest ∧ k rest = some x := by
  intro s
  induction s with
  | nil => intro h; simp [plusLoop] at h
  | cons c t ih =>
    intro h
    rw [plusLoop] at h
    by_cases hc : p c = true
    · rw [if_pos hc] at h
      cases hrec : plusLoop p k t with
      | some y =>
        rw [hrec] at h
        have hyx : some y = some x := h
        rw [hyx] at hrec
        obtain ⟨w, rest, -, hw, hs, hk⟩ := ih hrec
        refine ⟨c :: w, rest, by simp, ?_, by rw [hs]; rfl, hk⟩
        intro d hd
        rcases List.mem_cons.1 hd with rfl | hd
        · exact hc
        · exact hw d hd
      | none =>
        rw [hrec] at h
        exact ⟨[c], t, by simp, by simpa using hc, rfl, h⟩
    · rw [if_neg hc] at h
      cases h

theorem plusLoop_complete {α : Type} (p : Char → Bool) (k : List Char → Option α)
    (rest : List Char) (hk : (k rest).isSome = true) :
    ∀ w : List Char, w ≠ [] → (∀ c ∈ w, p c = true) →
      (plusLoop p k (w ++ rest)).isSome = true := by
  intro w
  induction w with
  | nil => intro h; exact absurd rfl h
  | cons c w ih =>
    intro _ hw
    have hc : p c = true := hw c (List.mem_cons_self _ _)
    rw [List.cons_append, plusLoop, if_pos hc]
    by_cases hnil : w = []
    · subst hnil
      cases hrec : plusLoop p k ([] ++ rest) with
      | some y => rfl
      | none => simpa using hk
    · have h := ih hnil (fun d hd => hw d (List.mem_cons_of_mem _ hd))
      cases hrec : plusLoop p k (w ++ rest) with
      | some y => rfl
      | none => rw [hrec] at h; cases h

/-- Soundness of the matcher: an accepted run is a denoted match followed by an accepting
continuation, with the same result. -/
theorem run_sound {α : Type} (total : Nat) (r : Regex) :
    ∀ (s : List Char) (k : List Char → Option α) (x : α), Regex.run total r s k = some x →
      ∃ rest, Regex.Sem total r s rest ∧ k rest = some x := by
  induction r with
  | cls p =>
    intro s k x h
    cases s with
    | nil => simp [Regex.run] at h
    | cons c t =>
      simp only [Regex.run] at h
      by_cases hc : p c = true
      · rw [if_pos hc] at h
        exact ⟨t, ⟨c, hc, rfl⟩, h⟩
      · rw [if_neg hc] at h
        cases h
  | seq a b iha ihb =>
    intro s k x h
    simp only [Regex.run] at h
    obtain ⟨t, hat, hk⟩ := iha s _ x h
    obtain ⟨rest, hbt, hk2⟩ := ihb t k x hk
    exact ⟨rest, ⟨t, hat, hbt⟩, hk2⟩
  | alt a b iha ihb =>
    intro s k x h
    simp only [Regex.run] at h
    cases ha : Regex.run total a s k with
    | some y =>
      rw [ha] at h
      obtain ⟨rest, hs, hk⟩ := iha s k y ha
      exact ⟨rest, Or.inl hs, by rw [hk]; exact h⟩
    | none =>
      rw [ha] at h
      obtain ⟨rest, hs, hk⟩ := ihb s k x h
      exact ⟨rest, Or.inr hs, hk⟩
  | opt a iha =>
    intro s k x h
    simp only [Regex.run] at h
    cases ha : Regex.run total a s k with
    | some y =>
      rw [ha] at h
      obtain ⟨rest, hs, hk⟩ := iha s k y ha
      exact ⟨rest, Or.inl hs, by rw [hk]; exact h⟩
    | none =>
      rw [ha] at h
      exact ⟨s, Or.inr rfl, h⟩
  | plus p =>
    intro s k x h
    simp only [Regex.run] at h
    obtain ⟨w, rest, hne, hw, hs, hk⟩ := plusLoop_sound p k x s h
    exact ⟨rest, ⟨w, hne, hw, hs⟩, hk⟩
  | bol =>
    intro s k x h
    simp only [Regex.run] at h
    by_cases hl : s.length = total
    · rw [if_pos hl] at h
      exact ⟨s, ⟨rfl, hl⟩, h⟩
    · rw [if_neg hl] at h
      cases h
  | eol =>
    intro s k x h
    simp only [Regex.run] at h
    by_cases hl : s = []
    · rw [if_pos hl] at h
      exact ⟨s, ⟨rfl, hl⟩, h⟩
    · rw [if_neg hl] at h
      cases h

/-- Completeness of the matcher: when a denoted match is followed by an accepting
continuation, the run accepts. -/
theorem run_complete {α : Type} (total : Nat) (r : Regex) :
    ∀ (s rest : List Char) (k : List Char → Option α), Regex.Sem total r s rest →
      (k rest).isSome = true → (Regex.run total r s k).isSome = true := by
  induction r with
  | cls p =>
    intro s rest k hs hk
    obtain ⟨c, hc, rfl⟩ := hs
    simp only [Regex.run]
    rw [if_pos hc]
    exact hk
  | seq a b iha ihb =>
    intro s rest k hs hk
    obtain ⟨t, hat, hbt⟩ := hs
    simp only [Regex.run]
    exact iha s t _ hat (ihb t rest k hbt hk)
  | alt a b iha ihb =>
    intro s rest k hs hk
    simp only [Regex.run]
    cases ha : Regex.run total a s k with
    | some y => rfl
    | none =>
      rcases hs with hs | hs
      · have := iha s rest k hs hk
        rw [ha] at this
        cases this
      · exact ihb s rest k hs hk
  | opt a iha =>
    intro s rest k hs hk
    simp only [Regex.run]
    cases ha : Regex.run total a s k with
    | some y => rfl
    | none =>
      rcases hs with hs | hs
      · have := iha s rest k hs hk
        rw [ha] at this
        cases this
      · rw [hs] at hk
        exact hk
  | plus p =>
    intro s rest k hs hk
    obtain ⟨w, hne, hw, rfl⟩ := hs
    simp only [Regex.run]
    exact plusLoop_complete p k rest hk w hne hw
  | bol =>
    intro s rest k hs hk
    obtain ⟨rfl, hl⟩ := hs
    simp only [Regex.run]
    rw [if_pos hl]
    exact hk
  | eol =>
    intro s rest k hs hk
    obtain ⟨rfl, hl⟩ := hs
    simp only [Regex.run]
    rw [if_pos hl]
    exact hk

/-- Function `regex_match` accepts exactly the subjects the pattern denotes in full. -/
theorem regex_match_iff (subject : List Char) (r : Regex) :
    regex_match subject r = true ↔ Regex.Sem subject.length r subject [] := by
  unfold regex_match
  constructor
  · intro h
    obtain ⟨x, hx⟩ := Option.isSome_iff_exists.1 h
    obtain ⟨rest, hs, hk⟩ := run_sound subject.length r subject _ x hx
    by_cases hr : rest = []
    · rw [hr] at hs
      exact hs
    · rw [if_neg hr] at hk
      cases hk
  · intro h
    exact run_complete subject.length r subject [] _ h (by simp)

/-! ## Character classes -/

theorem char_le_iff (a b : Char) : a ≤ b ↔ a.toNat ≤ b.toNat := Iff.rfl

theorem inRange_iff (lo hi c : Char) :
    inRange lo hi c = true ↔ lo.toNat ≤ c.toNat ∧ c.toNat ≤ hi.toNat := by
  simp [inRange, char_le_iff]

theorem char_eq_of_toNat (c d : Char) (h : c.toNat = d.toNat) : c = d := by
  rw [← Char.ofNat_toNat c, ← Char.ofNat_toNat d, h]

theorem isDigit_iff (c : Char) : isDigit c = true ↔ 48 ≤ c.toNat ∧ c.toNat ≤ 57 := by
  rw [isDigit, inRange_iff]
  rfl

theorem isSpace_iff (c : Char) :
    isSpace c = true ↔ c.toNat = 32 ∨ (9 ≤ c.toNat ∧ c.toNat ≤ 13) := by
  unfold isSpace
  simp only [Bool.or_eq_true, Bool.and_eq_true, decide_eq_true_eq, beq_iff_eq]
  constructor
  · rintro (h | h)
    · left; rw [h]; rfl
    · right; exact h
  · rintro (h | h)
    · left; exact char_eq_of_toNat _ _ h
    · right; exact h

theorem not_isDigit_of_isSpace (c : Char) (h : isSpace c = true) : isDigit c = false := by
  rw [isSpace_iff] at h
  rw [Bool.eq_false_iff, Ne, isDigit_iff]
  omega

/-! ## The number-plus-unit pattern -/

/-- A run of characters of a class followed by a character outside it splits in one way. -/
theorem span_unique (p : Char → Bool) :
    ∀ (a a1 : List Char) (x x1 : Char) (r r1 : List Char),
      (∀ c ∈ a, p c = true) → (∀ c ∈ a1, p c = true) → p x = false → p x1 = false →
      a ++ x :: r = a1 ++ x1 :: r1 → a = a1 ∧ x = x1 ∧ r = r1 := by
  intro a
  induction a with
  | nil =>
    intro a1 x x1 r r1 _ ha1 hx _ h
    cases a1 with
    | nil =>
      simp only [List.nil_append, List.cons.injEq] at h
      exact ⟨rfl, h.1, h.2⟩
    | cons d a1 =>
      simp only [List.nil_append, List.cons_append, List.cons.injEq] at h
      have := ha1 d (List.mem_cons_self _ _)
      rw [← h.1, hx] at this
      cases this
  | cons c a ih =>
    intro a1 x x1 r r1 ha ha1 hx hx1 h
    cases a1 with
    | nil =>
      simp only [List.nil_append, List.cons_append, List.cons.injEq] at h
      have := ha c (List.mem_cons_self _ _)
      rw [h.1, hx1] at this
      cases this
    | cons d a1 =>
      simp only [List.cons_append, List.cons.injEq] at h
      obtain ⟨h1, h2, h3⟩ := ih a1 x x1 r r1 (fun e he => ha e (List.mem_cons_of_mem _ he))
        (fun e he => ha1 e (List.mem_cons_of_mem _ he)) hx hx1 h.2
      exact ⟨by rw [h.1, h1], h2, h3⟩

theorem unit_unique (u u1 rest rest1 : List Char) (hu : u ∈ unitMarkers)
    (hu1 : u1 ∈ unitMarkers) (h : u ++ rest = u1 ++ rest1) : u = u1 ∧ rest = rest1 := by
  simp only [unitMarkers, List.mem_cons, List.mem_singleton, List.not_mem_nil, or_false]
    at hu hu1
  rcases hu with rfl | rfl | rfl <;> rcases hu1 with rfl | rfl | rfl <;>
    simp_all

/-- The text of a number, `a.b`, has the decimal value of its digits. -/
theorem numeralValue_number (a b : List Char) (ha : ∀ c ∈ a, isDigit c = true)
    (hb : ∀ c ∈ b, isDigit c = true) :
    numeralValue (a ++ '.' :: b) =
      (decimalValue a : ℚ) + (decimalValue b : ℚ) / (10 : ℚ) ^ b.length := by
  have hdot : isDigit '.' = false := by decide
  have h1 : (a ++ '.' :: b).takeWhile isDigit = a := by
    rw [List.takeWhile_append_of_pos ha, List.takeWhile_cons, hdot]
    simp
  have h2 : (a ++ '.' :: b).dropWhile isDigit = '.' :: b := by
    rw [List.dropWhile_append_of_pos ha, List.dropWhile_cons, hdot]
    simp
  have h3 : b.takeWhile isDigit = b := List.takeWhile_eq_self_iff.2 hb
  unfold numeralValue
  simp only [h1, h2, h3]

/-- What group 1 and the rest of the pattern denote together. -/
theorem token_of_sem (n : Nat) (s t rest : List Char) (hnum : Regex.Sem n reNumber s t)
    (hunit : Regex.Sem n reUnit t rest) :
    ∃ a b w u, a ≠ [] ∧ (∀ c ∈ a, isDigit c = true) ∧ b ≠ [] ∧ (∀ c ∈ b, isDigit c = true) ∧
      isSpace w = true ∧ u ∈ unitMarkers ∧ s = (a ++ '.' :: b) ++ t ∧ t = w :: u ++ rest := by
  simp only [reNumber, chr, Regex.Sem, beq_iff_eq] at hnum
  obtain ⟨t1, ⟨a, ha0, ha, rfl⟩, t2, ⟨c, rfl, rfl⟩, b, hb0, hb, rfl⟩ := hnum
  simp only [reUnit, chr, Regex.Sem, beq_iff_eq] at hunit
  obtain ⟨t3, ⟨w, hw, rfl⟩, hu⟩ := hunit
  rcases hu with ⟨_, ⟨_, rfl, rfl⟩, _, ⟨_, rfl, rfl⟩, _, rfl, rfl⟩ |
    ⟨_, ⟨_, rfl, rfl⟩, _, rfl, rfl⟩ | ⟨_, ⟨_, rfl, rfl⟩, _, rfl, rfl⟩
  · exact ⟨a, b, w, ['d', 'e', 'g'], ha0, ha, hb0, hb, hw, by simp [unitMarkers], by simp, rfl⟩
  · exact ⟨a, b, w, ['P', 'a'], ha0, ha, hb0, hb, hw, by simp [unitMarkers], by simp, rfl⟩
  · exact ⟨a, b, w, ['r', 'H'], ha0, ha, hb0, hb, hw, by simp [unitMarkers], by simp, rfl⟩

theorem sem_of_token (n : Nat) (a b : List Char) (w : Char) (u rest : List Char)
    (ha0 : a ≠ []) (ha : ∀ c ∈ a, isDigit c = true) (hb0 : b ≠ [])
    (hb : ∀ c ∈ b, isDigit c = true) (hw : isSpace w = true) (hu : u ∈ unitMarkers) :
    Regex.Sem n reNumber (a ++ '.' :: b ++ w :: u ++ rest) (w :: u ++ rest) ∧
      Regex.Sem n reUnit (w :: u ++ rest) rest := by
  constructor
  · simp only [reNumber, chr, Regex.Sem, beq_iff_eq]
    exact ⟨'.' :: b ++ w :: u ++ rest, ⟨a, ha0, ha, by simp⟩, b ++ w :: u ++ rest,
      ⟨'.', rfl, by simp⟩, b, hb0, hb, by simp⟩
  · simp only [reUnit, chr, Regex.Sem, beq_iff_eq]
    refine ⟨u ++ rest, ⟨w, hw, rfl⟩, ?_⟩
    simp only [unitMarkers, List.mem_cons, List.mem_singleton, List.not_mem_nil, or_false]
      at hu
    rcases hu with rfl | rfl | rfl
    · exact Or.inl ⟨_, ⟨_, rfl, rfl⟩, _, ⟨_, rfl, rfl⟩, _, rfl, rfl⟩
    · exact Or.inr (Or.inl ⟨_, ⟨_, rfl, rfl⟩, _, rfl, rfl⟩)
    · exact Or.inr (Or.inr ⟨_, ⟨_, rfl, rfl⟩, _, rfl, rfl⟩)

theorem take_length_sub (cap t : List Char) :
    (cap ++ t).take ((cap ++ t).length - t.length) = cap := by
  rw [List.length_append, Nat.add_sub_cancel, List.take_left]

theorem matchHere_shape (s cap rest : List Char) (h : matchHere s = some (cap, rest)) :
    ∃ a b w u, a ≠ [] ∧ (∀ c ∈ a, isDigit c = true) ∧ b ≠ [] ∧ (∀ c ∈ b, isDigit c = true) ∧
      isSpace w = true ∧ u ∈ unitMarkers ∧ cap = a ++ '.' :: b ∧
      s = a ++ '.' :: b ++ w :: u ++ rest := by
  unfold matchHere at h
  obtain ⟨t, hnum, hk⟩ := run_sound _ reNumber s _ _ h
  obtain ⟨rest1, hunit, hk2⟩ := run_sound _ reUnit t _ _ hk
  simp only [Option.some.injEq, Prod.mk.injEq] at hk2
  obtain ⟨hcap, rfl⟩ := hk2
  obtain ⟨a, b, w, u, ha0, ha, hb0, hb, hw, hu, hs, ht⟩ := token_of_sem _ s t rest1 hnum hunit
  refine ⟨a, b, w, u, ha0, ha, hb0, hb, hw, hu, ?_, ?_⟩
  · rw [← hcap, hs]
    exact take_length_sub _ _
  · rw [hs, ht]
    simp

theorem token_unique (a b : List Char) (w : Char) (u rest a1 b1 : List Char) (w1 : Char)
    (u1 rest1 : List Char)
    (ha : ∀ c ∈ a, isDigit c = true) (hb : ∀ c ∈ b, isDigit c = true)
    (hw : isSpace w = true) (hu : u ∈ unitMarkers)
    (ha1 : ∀ c ∈ a1, isDigit c = true) (hb1 : ∀ c ∈ b1, isDigit c = true)
    (hw1 : isSpace w1 = true) (hu1 : u1 ∈ unitMarkers)
    (h : a ++ '.' :: b ++ w :: u ++ rest = a1 ++ '.' :: b1 ++ w1 :: u1 ++ rest1) :
    a = a1 ∧ b = b1 ∧ rest = rest1 := by
  have hdot : isDigit '.' = false := by decide
  simp only [List.append_assoc, List.cons_append] at h
  obtain ⟨h1, -, h2⟩ := span_unique isDigit a a1 '.' '.' _ _ ha ha1 hdot hdot h
  obtain ⟨h3, -, h4⟩ := span_unique isDigit b b1 w w1 _ _ hb hb1
    (not_isDigit_of_isSpace w hw) (not_isDigit_of_isSpace w1 hw1) h2
  exact ⟨h1, h3, (unit_unique u u1 rest rest1 hu hu1 h4).2⟩

/-- A successful attempt of the pattern at the front of `s` is a token there, valued by
`numeralValue` of group 1, and it consumes at least one character. -/
theorem matchHere_sound (s cap rest : List Char) (h : matchHere s = some (cap, rest)) :
    TokenAt s (numeralValue cap) rest ∧ rest.length < s.length := by
  obtain ⟨a, b, w, u, ha0, ha, hb0, hb, hw, hu, hcap, hs⟩ := matchHere_shape s cap rest h
  refine ⟨⟨a, b, w, u, ha0, ha, hb0, hb, hw, hu, ?_, hs⟩, ?_⟩
  · rw [hcap, numeralValue_number a b ha hb]
  · rw [hs]
    simp only [List.length_append, List.length_cons]
    omega

/-- A token at the front of `s` is found by the attempt of the pattern there. -/
theorem matchHere_complete (s : List Char) (v : ℚ) (rest : List Char)
    (h : TokenAt s v rest) : ∃ cap, matchHere s = some (cap, rest) ∧ numeralValue cap = v := by
  obtain ⟨a, b, w, u, ha0, ha, hb0, hb, hw, hu, hv, hs⟩ := h
  obtain ⟨hnum, hunit⟩ := sem_of_token s.length a b w u rest ha0 ha hb0 hb hw hu
  have hsome : (matchHere s).isSome = true := by
    unfold matchHere
    rw [hs] at hnum ⊢
    exact run_complete _ reNumber _ _ _ hnum (run_complete _ reUnit _ _ _ hunit rfl)
  obtain ⟨⟨cap, rest1⟩, hm⟩ := Option.isSome_iff_exists.1 hsome
  obtain ⟨a1, b1, w1, u1, -, ha1, -, hb1, hw1, hu1, hcap, hs1⟩ := matchHere_shape s cap rest1 hm
  obtain ⟨e1, e2, e3⟩ := token_unique a b w u rest a1 b1 w1 u1 rest1 ha hb hw hu ha1 hb1 hw1 hu1
    (hs.symm.trans hs1)
  refine ⟨cap, by rw [hm, e3], ?_⟩
  rw [hcap, ← e1, ← e2, numeralValue_number a b ha hb, hv]

/-! ## The scan of a text -/

/-- A failed search: the pattern matches at no position of the text. -/
theorem regex_search_none (text : List Char) (h : regex_search text = none) :
    ∀ pre s, text = pre ++ s → matchHere s = none := by
  induction text with
  | nil =>
    intro pre s hs
    have hnil := List.append_eq_nil.1 hs.symm
    rw [hnil.2]
    exact h
  | cons c t ih =>
    intro pre s hs
    rw [regex_search] at h
    cases hm : matchHere (c :: t) with
    | some r => rw [hm] at h; cases h
    | none =>
      rw [hm] at h
      cases pre with
      | nil => rw [← List.nil_append s, ← hs]; exact hm
      | cons d pre =>
        simp only [List.cons_append, List.cons.injEq] at hs
        exact ih h pre s hs.2

/-- A successful search returns the match at the leftmost position where the pattern
matches. -/
theorem regex_search_some (text : List Char) (r : List Char × List Char)
    (h : regex_search text = some r) :
    ∃ pre s, text = pre ++ s ∧ matchHere s = some r ∧
      ∀ pre1 s1, text = pre1 ++ s1 → pre1.length < pre.length → matchHere s1 = none := by
  induction text with
  | nil =>
    exact ⟨[], [], rfl, h, fun _ _ _ hlt => absurd hlt (Nat.not_lt_zero _)⟩
  | cons c t ih =>
    rw [regex_search] at h
    cases hm : matchHere (c :: t) with
    | some r1 =>
      rw [hm] at h
      exact ⟨[], c :: t, rfl, hm.trans h, fun _ _ _ hlt => absurd hlt (Nat.not_lt_zero _)⟩
    | none =>
      rw [hm] at h
      obtain ⟨pre, s, hs, hms, hleft⟩ := ih h
      refine ⟨c :: pre, s, by rw [hs]; rfl, hms, ?_⟩
      intro pre1 s1 hs1 hlt
      cases pre1 with
      | nil => rw [← List.nil_append s1, ← hs1]; exact hm
      | cons d pre1 =>
        simp only [List.cons_append, List.cons.injEq] at hs1
        exact hleft pre1 s1 hs1.2 (by simpa using hlt)

/-- The search finds a match that stands at the leftmost matching position. -/
theorem regex_search_leftmost (r : List Char × List Char) (s : List Char)
    (hm : matchHere s = some r) :
    ∀ pre : List Char,
      (∀ pre1 s1, pre ++ s = pre1 ++ s1 → pre1.length < pre.length → matchHere s1 = none) →
      regex_search (pre ++ s) = some r := by
  intro pre
  induction pre with
  | nil =>
    intro _
    cases s with
    | nil => exact hm
    | cons c t =>
      rw [List.nil_append, regex_search, hm]
  | cons c pre ih =>
    intro hleft
    have h0 : matchHere (c :: (pre ++ s)) = none :=
      hleft [] (c :: (pre ++ s)) rfl (by simp)
    rw [List.cons_append, regex_search, h0]
    apply ih
    intro pre1 s1 hs1 hlt
    exact hleft (c :: pre1) s1 (by rw [List.cons_append, hs1]; rfl) (by simpa using hlt)

theorem suffix_length_le (text pre s : List Char) (h : text = pre ++ s) :
    s.length ≤ text.length := by
  rw [h, List.length_append]
  omega

/-- The computed match values are the scan of the text, whatever the fuel above the
length of the text. -/
theorem scan_matchValuesFuel :
    ∀ (fuel : Nat) (text : List Char), text.length < fuel →
      Scan text (matchValuesFuel fuel text) := by
  intro fuel
  induction fuel with
  | zero => intro text h; exact absurd h (Nat.not_lt_zero _)
  | succ fuel ih =>
    intro text hlen
    rw [matchValuesFuel]
    cases hsearch : regex_search text with
    | none =>
      refine Scan.none text ?_
      intro pre s v rest hs htok
      obtain ⟨cap, hm, -⟩ := matchHere_complete s v rest htok
      rw [regex_search_none text hsearch pre s hs] at hm
      cases hm
    | some r =>
      obtain ⟨cap, rest⟩ := r
      obtain ⟨pre, s, hs, hm, hleft⟩ := regex_search_some text _ hsearch
      obtain ⟨htok, hlt⟩ := matchHere_sound s cap rest hm
      refine Scan.next text pre s (numeralValue cap) rest _ hs htok ?_ (ih rest ?_)
      · intro pre1 s1 v1 rest1 hs1 hlt1 htok1
        obtain ⟨cap1, hm1, -⟩ := matchHere_complete s1 v1 rest1 htok1
        rw [hleft pre1 s1 hs1 hlt1] at hm1
        cases hm1
      · have := suffix_length_le text pre s hs
        omega

/-- Every scan of a text is the computed list of match values. -/
theorem matchValuesFuel_of_scan (text : List Char) (vs : List ℚ) (h : Scan text vs) :
    ∀ fuel : Nat, text.length < fuel → matchValuesFuel fuel text = vs := by
  induction h with
  | none text hno =>
    intro fuel hlen
    cases fuel with
    | zero => exact absurd hlen (Nat.not_lt_zero _)
    | succ fuel =>
      rw [matchValuesFuel]
      cases hsearch : regex_search text with
      | none => rfl
      | some r =>
        obtain ⟨cap, rest⟩ := r
        obtain ⟨pre, s, hs, hm, -⟩ := regex_search_some text _ hsearch
        exact absurd (matchHere_sound s cap rest hm).1 (hno pre s _ rest hs)
  | next text pre s v rest vs hsplit htok hleft _ ih =>
    intro fuel hlen
    cases fuel with
    | zero => exact absurd hlen (Nat.not_lt_zero _)
    | succ fuel =>
      obtain ⟨cap, hm, hv⟩ := matchHere_complete s v rest htok
      have hsearch : regex_search text = some (cap, rest) := by
        rw [hsplit]
        apply regex_search_leftmost _ s hm pre
        intro pre1 s1 hs1 hlt1
        cases hm1 : matchHere s1 with
        | none => rfl
        | some r1 =>
          obtain ⟨cap1, rest1⟩ := r1
          exact absurd (matchHere_sound s1 cap1 rest1 hm1).1
            (hleft pre1 s1 _ rest1 (hsplit.trans hs1) hlt1)
      have hlt := (matchHere_sound s cap rest hm).2
      have hle := suffix_length_le text pre s hsplit
      rw [matchValuesFuel, hsearch]
      simp only
      rw [hv, ih fuel (by omega)]

/-- The computed match values are the scan of the text. -/
theorem scan_matchValues (response : List Char) : Scan response (matchValues response) :=
  scan_matchValuesFuel _ response (Nat.lt_succ_self _)

theorem matchValues_of_scan (response : List Char) (vs : List ℚ) (h : Scan response vs) :
    matchValues response = vs :=
  matchValuesFuel_of_scan response vs h _ (Nat.lt_succ_self _)

/-- More fuel than the length of the text does not change the result of the loop. -/
theorem matchValuesFuel_enough (fuel : Nat) (text : List Char) (h : text.length < fuel) :
    matchValuesFuel fuel text = matchValues text :=
  matchValuesFuel_of_scan text _ (scan_matchValues text) fuel h

theorem scan_unique (response : List Char) (vs ws : List ℚ) (h1 : Scan response vs)
    (h2 : Scan response ws) : vs = ws :=
  (matchValues_of_scan response vs h1).symm.trans (matchValues_of_scan response ws h2)

/-! ## The search loop of fetchData -/

theorem rangeError_of_overflow (tinyIsError : ℚ → Bool) (v : ℚ) (h : overflowBound ≤ v) :
    rangeError tinyIsError v = true := by
  simp [rangeError, h]

/-- On zero and on every value in the normal range of `double`, `strtod` reports no range
error, whatever the implementation does on tiny values. -/
theorem rangeError_of_normal (tinyIsError : ℚ → Bool) (v : ℚ) (hlow : v = 0 ∨ minNormal ≤ v)
    (hhigh : v < overflowBound) : rangeError tinyIsError v = false := by
  have h1 : ¬ overflowBound ≤ v := not_le.2 hhigh
  rcases hlow with h0 | hmin
  · subst h0
    simp only [rangeError, decide_eq_false h1, lt_self_iff_false, decide_False,
      Bool.false_and, Bool.or_false]
  · have h2 : ¬ v < minNormal := not_lt.2 hmin
    simp [rangeError, h1, h2]

/-- The loop of `fetchData` against the computed match values: it returns them when `stod`
converts every one of them, and throws otherwise. -/
theorem collectFuel_eq (tinyIsError : ℚ → Bool) :
    ∀ (fuel : Nat) (text : List Char),
      collectFuel tinyIsError fuel text =
        if (matchValuesFuel fuel text).all (fun v => !rangeError tinyIsError v) = true then
          .ok (matchValuesFuel fuel text)
        else .error .out_of_range := by
  intro fuel
  induction fuel with
  | zero => intro text; rfl
  | succ fuel ih =>
    intro text
    rw [collectFuel, matchValuesFuel]
    cases hsearch : regex_search text with
    | none => rfl
    | some r =>
      obtain ⟨cap, rest⟩ := r
      simp only [stod, ih rest, List.all_cons, Bool.and_eq_true, Bool.not_eq_true']
      cases hr : rangeError tinyIsError (numeralValue cap) with
      | true => simp
      | false =>
        by_cases hall :
            (matchValuesFuel fuel rest).all (fun v => !rangeError tinyIsError v) = true
        · simp [hall]
        · simp [hall]

theorem collectValues_of_scan (tinyIsError : ℚ → Bool) (response : List Char) (vs : List ℚ)
    (h : Scan response vs) :
    collectValues tinyIsError response =
      if vs.all (fun v => !rangeError tinyIsError v) = true then .ok vs
      else .error .out_of_range := by
  rw [collectValues, collectFuel_eq,
    matchValuesFuel_of_scan response vs h _ (Nat.lt_succ_self _)]

theorem all_inRange_iff (tinyIsError : ℚ → Bool) (vs : List ℚ) :
    vs.all (fun v => !rangeError tinyIsError v) = true ↔
      ∀ v ∈ vs, rangeError tinyIsError v = false := by
  simp [List.all_eq_true]

/-- When `stod` converts every matched numeral, `fetchData` returns: `true` with the first
three values when there are at least three, `false` with its outputs untouched
otherwise. -/
theorem fetchData_of_scan (tinyIsError : ℚ → Bool) (response : List Char) (vs : List ℚ)
    (t p h : ℚ) (hscan : Scan response vs)
    (hrange : ∀ v ∈ vs, rangeError tinyIsError v = false) :
    fetchData tinyIsError (some response) t p h =
      if 3 ≤ vs.length then .ok (true, vs.getD 0 0, vs.getD 1 0, vs.getD 2 0)
      else .ok (false, t, p, h) := by
  simp only [fetchData, extract, collectValues_of_scan tinyIsError response vs hscan]
  rw [if_pos ((all_inRange_iff tinyIsError vs).2 hrange)]

/-- When `stod` reports a range error on some matched numeral, `fetchData` throws. -/
theorem fetchData_of_scan_error (tinyIsError : ℚ → Bool) (response : List Char)
    (vs : List ℚ) (t p h : ℚ) (hscan : Scan response vs) (v : ℚ) (hv : v ∈ vs)
    (hbad : rangeError tinyIsError v = true) :
    fetchData tinyIsError (some response) t p h = .error .out_of_range := by
  simp only [fetchData, extract, collectValues_of_scan tinyIsError response vs hscan]
  rw [if_neg]
  intro hall
  have := (all_inRange_iff tinyIsError vs).1 hall v hv
  rw [hbad] at this
  cases this

theorem scan_sample_text :
    Scan "23.5 deg 1013.2 Pa 45.0 rH".toList [23.5, 1013.2, 45.0] :=
  have hv : matchValues "23.5 deg 1013.2 Pa 45.0 rH".toList = [23.5, 1013.2, 45.0] := by
    decide!
  hv ▸ scan_matchValues "23.5 deg 1013.2 Pa 45.0 rH".toList

theorem sample_values_inRange (tinyIsError : ℚ → Bool) :
    ∀ v ∈ [(23.5 : ℚ), 1013.2, 45.0], rangeError tinyIsError v = false := by
  intro v hv
  simp only [List.mem_cons, List.mem_singleton, List.not_mem_nil, or_false] at hv
  rcases hv with rfl | rfl | rfl <;>
    exact rangeError_of_normal _ _ (Or.inr (by norm_num [minNormal]))
      (by norm_num [overflowBound])

theorem fetchData_sample_text (tinyIsError : ℚ → Bool) (t p h : ℚ) :
    fetchData tinyIsError (some "23.5 deg 1013.2 Pa 45.0 rH".toList) t p h
      = .ok (true, 23.5, 1013.2, 45.0) := by
  rw [fetchData_of_scan tinyIsError _ _ t p h scan_sample_text
    (sample_values_inRange tinyIsError)]
  rfl

/-- C3 (as corrected): for every response text whose successive non-overlapping
left-to-right matches of the pattern (digits `.` digits, one whitespace character,
`deg|Pa|rH`) are at least three, and on none of whose matched numerals `stod` reports a
range error, the extraction of `fetchData` returns `true` with temperature, pressure and
humidity equal to the decimal values of the first, second and third match; and the text
`23.5 deg 1013.2 Pa 45.0 rH` yields 23.5, 1013.2 and 45.0. -/
theorem extraction_returns_first_three_in_range :
    (∀ (tinyIsError : ℚ → Bool) (response : List Char) (v0 v1 v2 : ℚ) (more : List ℚ)
      (t p h : ℚ), Scan response (v0 :: v1 :: v2 :: more) →
      (∀ v ∈ v0 :: v1 :: v2 :: more, rangeError tinyIsError v = false) →
        fetchData tinyIsError (some response) t p h = .ok (true, v0, v1, v2)) ∧
    (∀ tinyIsError : ℚ → Bool,
      fetchData tinyIsError (some "23.5 deg 1013.2 Pa 45.0 rH".toList) 0 0 0
        = .ok (true, 23.5, 1013.2, 45.0)) := by
  refine ⟨?_, fun tinyIsError => fetchData_sample_text tinyIsError 0 0 0⟩
  intro tinyIsError response v0 v1 v2 more t p h hscan hrange
  rw [fetchData_of_scan tinyIsError response _ t p h hscan hrange]
  simp

/-- Witness of C3: the scan of `23.5 deg 1013.2 Pa 45.0 rH` has the three values 23.5,
1013.2, 45.0, all in the range of `double`, and they are what `fetchData` returns. -/
theorem extraction_returns_first_three_in_range_witness :
    Scan "23.5 deg 1013.2 Pa 45.0 rH".toList [23.5, 1013.2, 45.0] ∧
    (∀ v ∈ [(23.5 : ℚ), 1013.2, 45.0], rangeError (fun _ => true) v = false) ∧
    fetchData (fun _ => true) (some "23.5 deg 1013.2 Pa 45.0 rH".toList) 7 8 9
      = .ok (true, 23.5, 1013.2, 45.0) :=
  ⟨scan_sample_text, sample_values_inRange _,
    extraction_returns_first_three_in_range.1 (fun _ => true) _ 23.5 1013.2 45.0 [] 7 8 9
      scan_sample_text (sample_values_inRange _)⟩

/-- C3 (counterexample): the text made of `1` followed by 399 zeros and
`.0 deg 2.5 Pa 3.5 rH` has three matches, yet `fetchData` does not return: `stod` throws
`std::out_of_range` on the first numeral. The same happens when the numeral that is out
of range is a fourth match, after three that are in range. -/
theorem extraction_throws_on_huge_numeral :
    Scan (('1' :: List.replicate 399 '0') ++ ".0 deg 2.5 Pa 3.5 rH".toList)
      [10 ^ 399, 5 / 2, 7 / 2] ∧
    (∀ (tinyIsError : ℚ → Bool) (t p h : ℚ),
      fetchData tinyIsError
        (some (('1' :: List.replicate 399 '0') ++ ".0 deg 2.5 Pa 3.5 rH".toList)) t p h
        = .error .out_of_range) ∧
    Scan ("1.5 deg 2.5 Pa 3.5 rH ".toList ++ ('1' :: List.replicate 399 '0') ++ ".0 deg".toList)
      [3 / 2, 5 / 2, 7 / 2, 10 ^ 399] ∧
    (∀ (tinyIsError : ℚ → Bool) (t p h : ℚ),
      fetchData tinyIsError
        (some ("1.5 deg 2.5 Pa 3.5 rH ".toList ++ ('1' :: List.replicate 399 '0') ++
          ".0 deg".toList)) t p h
        = .error .out_of_range) := by
  have hbig : ∀ tinyIsError : ℚ → Bool, rangeError tinyIsError (10 ^ 399) = true :=
    fun tinyIsError => rangeError_of_overflow _ _ (by norm_num [overflowBound])
  have hv1 : matchValues (('1' :: List.replicate 399 '0') ++ ".0 deg 2.5 Pa 3.5 rH".toList)
      = [10 ^ 399, 5 / 2, 7 / 2] := by decide!
  have hs1 := hv1 ▸ scan_matchValues
    (('1' :: List.replicate 399 '0') ++ ".0 deg 2.5 Pa 3.5 rH".toList)
  have hv2 : matchValues
      ("1.5 deg 2.5 Pa 3.5 rH ".toList ++ ('1' :: List.replicate 399 '0') ++ ".0 deg".toList)
      = [3 / 2, 5 / 2, 7 / 2, 10 ^ 399] := by decide!
  have hs2 := hv2 ▸ scan_matchValues
    ("1.5 deg 2.5 Pa 3.5 rH ".toList ++ ('1' :: List.replicate 399 '0') ++ ".0 deg".toList)
  refine ⟨hs1, ?_, hs2, ?_⟩
  · intro tinyIsError t p h
    exact fetchData_of_scan_error tinyIsError _ _ t p h hs1 (10 ^ 399) (by simp)
      (hbig tinyIsError)
  · intro tinyIsError t p h
    exact fetchData_of_scan_error tinyIsError _ _ t p h hs2 (10 ^ 399) (by simp)
      (hbig tinyIsError)

/-- A call of `fetchData` that does not return `true`: either it returns `false` or it
throws. -/
theorem fetchData_not_true_iff (tinyIsError : ℚ → Bool) (transfer : Option (List Char))
    (t p h : ℚ) :
    (∀ r, fetchData tinyIsError transfer t p h = .ok r → r.1 = false) ↔
      (transfer = none ∨
        ∃ response, transfer = some response ∧
          ∀ vs, collectValues tinyIsError response = .ok vs → vs.length < 3) := by
  cases transfer with
  | none => simp [fetchData]
  | some response =>
    simp only [fetchData, extract, false_or, Option.some.injEq, exists_eq_left']
    cases hc : collectValues tinyIsError response with
    | error e => simp
    | ok vs =>
      by_cases h3 : 3 ≤ vs.length
      · simp [h3]
      · simp [h3]
        omega

theorem calcStep_plot_of_failure (s : RealtimePlot) (tinyIsError : ℚ → Bool) (elapsed : Int)
    (g : Bool) (transfer : Option (List Char))
    (hfail : ∀ r, fetchData tinyIsError transfer 0 0 0 = .ok r → r.1 = false) :
    (s.calcStep tinyIsError elapsed g transfer).plot = s := by
  unfold RealtimePlot.calcStep
  split
  · split
    · rfl
    · cases hf : fetchData tinyIsError transfer 0 0 0 with
      | error e => rfl
      | ok r =>
        simp only [hfail r hf]
        rfl
  · rfl

theorem calcStep_of_success (s : RealtimePlot) (tinyIsError : ℚ → Bool) (elapsed : Int)
    (g : Bool) (response : List Char) (vs : List ℚ) (hrun : s.running = true)
    (hgo : ¬ (s.duration ≤ elapsed ∨ s.stopFlag = true ∨ g = true))
    (hvs : collectValues tinyIsError response = .ok vs) (hok : 3 ≤ vs.length) :
    s.calcStep tinyIsError elapsed g (some response) =
      .fetched (s.update (vs.getD 0 0) (vs.getD 1 0) (vs.getD 2 0)) := by
  have hcond : (decide (s.duration ≤ elapsed) || s.stopFlag || g) = false := by
    simp only [not_or] at hgo
    simp [hgo.1, hgo.2.1, hgo.2.2]
  simp [RealtimePlot.calcStep, hrun, hcond, fetchData, extract, hvs, hok]

/-- C5: in one pass of the acquisition loop, if the fetch fails (transport error, or fewer
than three values extracted; an exception of the extraction is covered as well) the plot
object is left exactly as it was: the four series, the time index counter and the
pressure range are unchanged. So the failed pass uses up no time index: a following pass
that does fetch three values appends the index `s.timeIndex` the plot had before the
failed pass. -/
theorem failed_fetch_records_nothing (s : RealtimePlot) (tinyIsError : ℚ → Bool)
    (elapsed : Int) (g : Bool) (transfer : Option (List Char))
    (hfail : transfer = none ∨
      ∃ response, transfer = some response ∧
        ∀ vs, collectValues tinyIsError response = .ok vs → vs.length < 3) :
    (∀ r, fetchData tinyIsError transfer 0 0 0 = .ok r → r.1 = false) ∧
    (s.calcStep tinyIsError elapsed g transfer).plot = s ∧
    ∀ (elapsed2 : Int) (g2 : Bool) (response2 : List Char) (vs2 : List ℚ),
      s.running = true →
      ¬ (s.duration ≤ elapsed2 ∨ s.stopFlag = true ∨ g2 = true) →
      collectValues tinyIsError response2 = .ok vs2 → 3 ≤ vs2.length →
      ∃ s2, (s.calcStep tinyIsError elapsed g transfer).plot.calcStep tinyIsError elapsed2 g2
            (some response2) = .fetched s2 ∧
        s2.xData.getLast? = some (s.timeIndex : ℚ) ∧ s2.timeIndex = s.timeIndex + 1 := by
  have hf := (fetchData_not_true_iff tinyIsError transfer 0 0 0).2 hfail
  have hp := calcStep_plot_of_failure s tinyIsError elapsed g transfer hf
  refine ⟨hf, hp, ?_⟩
  intro elapsed2 g2 response2 vs2 hrun hgo hvs hok
  rw [hp, calcStep_of_success s tinyIsError elapsed2 g2 response2 vs2 hrun hgo hvs hok]
  exact ⟨_, rfl, by simp, by simp⟩

/-- Witness of C5: a running fresh plot and a pass whose transfer fails. -/
theorem failed_fetch_records_nothing_witness :
    ((none : Option (List Char)) = none ∨
      ∃ response, (none : Option (List Char)) = some response ∧
        ∀ vs, collectValues (fun _ => true) response = .ok vs → vs.length < 3) ∧
    (((RealtimePlot.new "lab" "out" 60).Start).calcStep (fun _ => true) 0 false none).plot
      = (RealtimePlot.new "lab" "out" 60).Start :=
  ⟨Or.inl rfl,
    (failed_fetch_records_nothing ((RealtimePlot.new "lab" "out" 60).Start) (fun _ => true)
      0 false none (Or.inl rfl)).2.1⟩

theorem update_flags (s : RealtimePlot) (temp pressure humidity : ℚ) :
    (s.update temp pressure humidity).running = s.running ∧
      (s.update temp pressure humidity).duration = s.duration ∧
      (s.update temp pressure humidity).stopFlag = s.stopFlag := by
  unfold RealtimePlot.update RealtimePlot.adaptScale RealtimePlot.push RealtimePlot.evict
  split <;> split <;> exact ⟨rfl, rfl, rfl⟩

/-- A pass that is let through and whose fetch returns `true` records the three values. -/
theorem calcStep_of_fetch_true (s : RealtimePlot) (tinyIsError : ℚ → Bool) (elapsed : Int)
    (transfer : Option (List Char)) (a b c : ℚ) (hrun : s.running = true)
    (hstop : s.stopFlag = false) (hd : ¬ s.duration ≤ elapsed)
    (hf : fetchData tinyIsError transfer 0 0 0 = .ok (true, a, b, c)) :
    s.calcStep tinyIsError elapsed false transfer = .fetched (s.update a b c) := by
  simp [RealtimePlot.calcStep, hrun, hstop, hd, hf]

/-- The schedule of C10 on any running plot with `duration = 12`. -/
theorem calc_schedule (s : RealtimePlot) (tinyIsError : ℚ → Bool)
    (transfer : Option (List Char)) (a b c : ℚ) (hrun : s.running = true)
    (hstop : s.stopFlag = false) (hd : s.duration = 12)
    (hf : fetchData tinyIsError transfer 0 0 0 = .ok (true, a, b, c)) :
    s.Calc tinyIsError [⟨false, 0, false, transfer⟩, ⟨false, 5, false, transfer⟩,
        ⟨false, 10, false, transfer⟩, ⟨false, 15, false, transfer⟩] =
      { plot := s.updates [⟨a, b, c⟩, ⟨a, b, c⟩, ⟨a, b, c⟩], fetches := 3, returned := true,
        terminated := false } := by
  have f1 := update_flags s a b c
  have f2 := update_flags (s.update a b c) a b c
  have f3 := update_flags ((s.update a b c).update a b c) a b c
  have h1 := calcStep_of_fetch_true s tinyIsError 0 transfer a b c hrun hstop
    (by rw [hd]; decide) hf
  have h2 := calcStep_of_fetch_true (s.update a b c) tinyIsError 5 transfer a b c
    (by rw [f1.1, hrun]) (by rw [f1.2.2, hstop]) (by rw [f1.2.1, hd]; decide) hf
  have h3 := calcStep_of_fetch_true ((s.update a b c).update a b c) tinyIsError 10 transfer
    a b c (by rw [f2.1, f1.1, hrun]) (by rw [f2.2.2, f1.2.2, hstop])
    (by rw [f2.2.1, f1.2.1, hd]; decide) hf
  have h4 : (((s.update a b c).update a b c).update a b c).calcStep tinyIsError 15 false
      transfer = .exited (((s.update a b c).update a b c).update a b c) := by
    simp [RealtimePlot.calcStep, f3.1, f2.1, f1.1, hrun, f3.2.1, f2.2.1, f1.2.1, hd]
  simp only [RealtimePlot.Calc, Bool.false_eq_true, if_false, h1, h2, h3, h4]
  rfl

/-- C10: a pass of the duration-limited loop leaves the loop without calling `fetchData` and
with the plot unchanged exactly when `running` is false, or the elapsed whole seconds
are at least `duration`, or `stopFlag` is set, or `globalStopFlag` is set; in every other
case it makes one `fetchData` call (which returns, or throws and ends the thread). With
`duration = 12`, passes at elapsed 0, 5, 10 and 15 seconds and every fetch succeeding,
three fetches are made and three samples are recorded before the loop returns. -/
theorem loop_exit_condition :
    (∀ (s : RealtimePlot) (tinyIsError : ℚ → Bool) (elapsed : Int) (g : Bool)
      (transfer : Option (List Char)),
      (s.calcStep tinyIsError elapsed g transfer = .exited s ↔
        (s.running = false ∨ s.duration ≤ elapsed ∨ s.stopFlag = true ∨ g = true)) ∧
      ((s.calcStep tinyIsError elapsed g transfer).fetchCalls = 1 ↔
        ¬ (s.running = false ∨ s.duration ≤ elapsed ∨ s.stopFlag = true ∨ g = true)) ∧
      ((s.calcStep tinyIsError elapsed g transfer).fetchCalls = 0 ↔
        (s.running = false ∨ s.duration ≤ elapsed ∨ s.stopFlag = true ∨ g = true)) ∧
      ((∃ s1, s.calcStep tinyIsError elapsed g transfer = .fetched s1) ↔
        (¬ (s.running = false ∨ s.duration ≤ elapsed ∨ s.stopFlag = true ∨ g = true) ∧
          ∃ r, fetchData tinyIsError transfer 0 0 0 = .ok r))) ∧
    (∀ tinyIsError : ℚ → Bool,
     let ok : Option (List Char) := some "23.5 deg 1013.2 Pa 45.0 rH".toList
     let r := ((RealtimePlot.new "lab" "out" 12).Start).Calc tinyIsError
       [⟨false, 0, false, ok⟩, ⟨false, 5, false, ok⟩, ⟨false, 10, false, ok⟩,
        ⟨false, 15, false, ok⟩]
     r.returned = true ∧ r.terminated = false ∧ r.fetches = 3 ∧ r.plot.timeIndex = 3 ∧
     r.plot = ((RealtimePlot.new "lab" "out" 12).Start).updates
       [⟨23.5, 1013.2, 45.0⟩, ⟨23.5, 1013.2, 45.0⟩, ⟨23.5, 1013.2, 45.0⟩]) := by
  refine ⟨?_, ?_⟩
  · intro s tinyIsError elapsed g transfer
    unfold RealtimePlot.calcStep
    cases hf : fetchData tinyIsError transfer 0 0 0 with
    | error e =>
      cases hr : s.running <;> cases hs : s.stopFlag <;> cases g <;>
        by_cases hd : s.duration ≤ elapsed <;> simp [hd, LoopStep.fetchCalls]
    | ok r =>
      obtain ⟨b, x⟩ := r
      cases b <;> cases hr : s.running <;> cases hs : s.stopFlag <;> cases g <;>
        by_cases hd : s.duration ≤ elapsed <;> simp [hd, LoopStep.fetchCalls]
  · intro tinyIsError
    simp only
    rw [calc_schedule _ tinyIsError _ 23.5 1013.2 45.0 rfl rfl rfl
      (fetchData_sample_text tinyIsError 0 0 0)]
    refine ⟨rfl, rfl, rfl, ?_, ?_⟩
    · simp only [RealtimePlot.updates, List.foldl_cons, List.foldl_nil, update_timeIndex]
      rfl
    · simp only

/-! ## isValidIPAddress -/

theorem isOctetField_iff (f : List Char) :
    isOctetField f = true ↔
      1 ≤ f.length ∧ f.length ≤ 3 ∧ (∀ c ∈ f, isDigit c = true) ∧ decimalValue f ≤ 255 := by
  simp [isOctetField, and_assoc]

theorem octet1_iff (a : Char) :
    isOctetField [a] = true ↔ (48 ≤ a.toNat ∧ a.toNat ≤ 57) := by
  simp only [isOctetField_iff, decimalValue, digitVal, List.length_singleton,
    List.mem_singleton, forall_eq, isDigit_iff, List.foldl_cons, List.foldl_nil]
  omega

theorem octet2_iff (a b : Char) :
    isOctetField [a, b] = true ↔
      (48 ≤ a.toNat ∧ a.toNat ≤ 57) ∧ (48 ≤ b.toNat ∧ b.toNat ≤ 57) := by
  simp only [isOctetField_iff, decimalValue, digitVal, List.length_cons, List.length_nil,
    List.mem_cons, List.mem_singleton, forall_eq_or_imp, forall_eq, isDigit_iff,
    List.foldl_cons, List.foldl_nil, List.not_mem_nil, or_false]
  omega

theorem octet3_iff (a b c : Char) :
    isOctetField [a, b, c] = true ↔
      (48 ≤ a.toNat ∧ a.toNat ≤ 57) ∧ (48 ≤ b.toNat ∧ b.toNat ≤ 57) ∧
        (48 ≤ c.toNat ∧ c.toNat ≤ 57) ∧
        100 * (a.toNat - 48) + 10 * (b.toNat - 48) + (c.toNat - 48) ≤ 255 := by
  simp only [isOctetField_iff, decimalValue, digitVal, List.length_cons, List.length_nil,
    List.mem_cons, List.mem_singleton, forall_eq_or_imp, forall_eq, isDigit_iff,
    List.foldl_cons, List.foldl_nil, List.not_mem_nil, or_false]
  omega

theorem octet_of_sem (n : Nat) (s rest : List Char) (h : Regex.Sem n reOctet s rest) :
    ∃ f, isOctetField f = true ∧ s = f ++ rest := by
  have e0 : ('0' : Char).toNat = 48 := rfl
  have e1 : ('1' : Char).toNat = 49 := rfl
  have e2 : ('2' : Char).toNat = 50 := rfl
  have e4 : ('4' : Char).toNat = 52 := rfl
  have e5 : ('5' : Char).toNat = 53 := rfl
  have e9 : ('9' : Char).toNat = 57 := rfl
  simp only [reOctet, chr, Regex.Sem, beq_iff_eq, Bool.or_eq_true, inRange_iff] at h
  rcases h with ⟨_, ⟨_, rfl, rfl⟩, _, ⟨_, rfl, rfl⟩, c, hc, rfl⟩ |
    ⟨_, ⟨_, rfl, rfl⟩, _, ⟨b, hb, rfl⟩, c, hc, rfl⟩ |
    ⟨t1, hopt, t2, ⟨d, hd, rfl⟩, hlast⟩
  · exact ⟨['2', '5', c], (octet3_iff _ _ _).2 (by omega), rfl⟩
  · exact ⟨['2', b, c], (octet3_iff _ _ _).2 (by omega), rfl⟩
  · rcases hopt with ⟨a, ha, rfl⟩ | rfl
    · have ha' : a.toNat = 48 ∨ a.toNat = 49 := by
        rcases ha with rfl | rfl
        · exact Or.inl rfl
        · exact Or.inr rfl
      rcases hlast with ⟨e, he, rfl⟩ | rfl
      · exact ⟨[a, d, e], (octet3_iff _ _ _).2 (by omega), rfl⟩
      · exact ⟨[a, d], (octet2_iff _ _).2 (by omega), rfl⟩
    · rcases hlast with ⟨e, he, rfl⟩ | rfl
      · exact ⟨[d, e], (octet2_iff _ _).2 (by omega), rfl⟩
      · exact ⟨[d], (octet1_iff _).2 (by omega), rfl⟩

theorem sem_of_octet (n : Nat) (f rest : List Char) (h : isOctetField f = true) :
    Regex.Sem n reOctet (f ++ rest) rest := by
  have e0 : ('0' : Char).toNat = 48 := rfl
  have e1 : ('1' : Char).toNat = 49 := rfl
  have e2 : ('2' : Char).toNat = 50 := rfl
  have e4 : ('4' : Char).toNat = 52 := rfl
  have e5 : ('5' : Char).toNat = 53 := rfl
  have e9 : ('9' : Char).toNat = 57 := rfl
  simp only [reOctet, chr, Regex.Sem, beq_iff_eq, Bool.or_eq_true, inRange_iff]
  have hlen := (isOctetField_iff f).1 h
  match f, h, hlen with
  | [], _, hlen => simp at hlen
  | [a], h, _ =>
    have := (octet1_iff a).1 h
    exact Or.inr (Or.inr ⟨a :: rest, Or.inr rfl, rest, ⟨a, by omega, rfl⟩, Or.inr rfl⟩)
  | [a, b], h, _ =>
    have := (octet2_iff a b).1 h
    exact Or.inr (Or.inr ⟨a :: b :: rest, Or.inr rfl, b :: rest, ⟨a, by omega, rfl⟩,
      Or.inl ⟨b, by omega, rfl⟩⟩)
  | [a, b, c], h, _ =>
    have h3 := (octet3_iff a b c).1 h
    by_cases ha : a.toNat ≤ 49
    · have ha' : a = '0' ∨ a = '1' := by
        by_cases h48 : a.toNat = 48
        · exact Or.inl (char_eq_of_toNat _ _ (h48.trans e0.symm))
        · exact Or.inr (char_eq_of_toNat _ _ (by omega))
      exact Or.inr (Or.inr ⟨b :: c :: rest, Or.inl ⟨a, ha', rfl⟩, c :: rest,
        ⟨b, by omega, rfl⟩, Or.inl ⟨c, by omega, rfl⟩⟩)
    · have ha2 : a = '2' := char_eq_of_toNat _ _ (by omega)
      subst ha2
      by_cases hb : b.toNat ≤ 52
      · exact Or.inr (Or.inl ⟨_, ⟨_, rfl, rfl⟩, _, ⟨b, by omega, rfl⟩, c, by omega, rfl⟩)
      · have hb5 : b = '5' := char_eq_of_toNat _ _ (by omega)
        subst hb5
        exact Or.inl ⟨_, ⟨_, rfl, rfl⟩, _, ⟨_, rfl, rfl⟩, c, by omega, rfl⟩
  | _ :: _ :: _ :: _ :: _, _, hlen => simp at hlen

theorem sem_seq (n : Nat) (a b : Regex) (s rest : List Char) :
    Regex.Sem n (.seq a b) s rest ↔ ∃ t, Regex.Sem n a s t ∧ Regex.Sem n b t rest := Iff.rfl

theorem sem_chr (n : Nat) (c : Char) (s rest : List Char) :
    Regex.Sem n (chr c) s rest ↔ s = c :: rest := by
  simp [chr, Regex.Sem]

theorem sem_bol (n : Nat) (s rest : List Char) :
    Regex.Sem n .bol s rest ↔ rest = s ∧ s.length = n := Iff.rfl

theorem sem_eol (n : Nat) (s rest : List Char) :
    Regex.Sem n .eol s rest ↔ rest = s ∧ s = [] := Iff.rfl

theorem octetDot_sem (n : Nat) (s rest : List Char) :
    Regex.Sem n reOctetDot s rest ↔ ∃ f, isOctetField f = true ∧ s = f ++ '.' :: rest := by
  rw [reOctetDot, sem_seq]
  constructor
  · rintro ⟨t, ht, hdot⟩
    rw [sem_chr] at hdot
    subst hdot
    obtain ⟨f, hf, rfl⟩ := octet_of_sem n s _ ht
    exact ⟨f, hf, rfl⟩
  · rintro ⟨f, hf, rfl⟩
    exact ⟨'.' :: rest, sem_of_octet n f _ hf, (sem_chr _ _ _ _).2 rfl⟩

/-- What the pattern of `isValidIPAddress` denotes on a whole subject. -/
theorem ipAddress_sem (s : List Char) :
    Regex.Sem s.length reIPAddress s [] ↔
      ∃ f1 f2 f3 f4, isOctetField f1 = true ∧ isOctetField f2 = true ∧
        isOctetField f3 = true ∧ isOctetField f4 = true ∧
        s = f1 ++ '.' :: (f2 ++ '.' :: (f3 ++ '.' :: f4)) := by
  simp only [reIPAddress, sem_seq, sem_bol, sem_eol, octetDot_sem]
  constructor
  · rintro ⟨_, ⟨rfl, -⟩, t1, ⟨ta, ⟨f1, h1, rfl⟩, tb, ⟨f2, h2, rfl⟩, f3, h3, rfl⟩, t2, h4, -, rfl⟩
    obtain ⟨f4, hoct, rfl⟩ := octet_of_sem _ _ _ h4
    exact ⟨f1, f2, f3, f4, h1, h2, h3, hoct, by simp⟩
  · rintro ⟨f1, f2, f3, f4, h1, h2, h3, h4, rfl⟩
    refine ⟨_, ⟨rfl, trivial⟩, f4, ⟨_, ⟨f1, h1, rfl⟩, _, ⟨f2, h2, rfl⟩, f3, h3, rfl⟩, [], ?_,
      rfl, rfl⟩
    have := sem_of_octet (f1 ++ '.' :: (f2 ++ '.' :: (f3 ++ '.' :: f4))).length f4 [] h4
    simpa using this

theorem splitDots_ne_nil (s : List Char) : splitDots s ≠ [] := by
  cases s with
  | nil => simp [splitDots]
  | cons c t =>
    rw [splitDots]
    split
    · simp
    · split <;> simp

theorem no_dot_of_octet (f : List Char) (h : isOctetField f = true) : '.' ∉ f := by
  intro hmem
  have := ((isOctetField_iff f).1 h).2.2.1 '.' hmem
  revert this
  decide

theorem splitDots_nodot (f : List Char) (h : '.' ∉ f) : splitDots f = [f] := by
  induction f with
  | nil => rfl
  | cons c t ih =>
    have hc : c ≠ '.' := fun e => h (by rw [e]; exact List.mem_cons_self _ _)
    rw [splitDots, if_neg hc, ih (fun hm => h (List.mem_cons_of_mem _ hm))]

theorem splitDots_append_dot (f rest : List Char) (h : '.' ∉ f) :
    splitDots (f ++ '.' :: rest) = f :: splitDots rest := by
  induction f with
  | nil => rw [List.nil_append, splitDots, if_pos rfl]
  | cons c t ih =>
    have hc : c ≠ '.' := fun e => h (by rw [e]; exact List.mem_cons_self _ _)
    rw [List.cons_append, splitDots, if_neg hc, ih (fun hm => h (List.mem_cons_of_mem _ hm))]

/-- The first field of a split text and what follows it. -/
theorem splitDots_cons_inv :
    ∀ (s f : List Char) (fs : List (List Char)), splitDots s = f :: fs →
      (fs = [] ∧ s = f) ∨ (∃ rest, s = f ++ '.' :: rest ∧ splitDots rest = fs) := by
  intro s
  induction s with
  | nil =>
    intro f fs h
    simp only [splitDots, List.cons.injEq] at h
    exact Or.inl ⟨h.2.symm, h.1⟩
  | cons c t ih =>
    intro f fs h
    rw [splitDots] at h
    by_cases hc : c = '.'
    · rw [if_pos hc] at h
      simp only [List.cons.injEq] at h
      exact Or.inr ⟨t, by rw [← h.1, hc]; rfl, h.2⟩
    · rw [if_neg hc] at h
      cases hsplit : splitDots t with
      | nil => exact absurd hsplit (splitDots_ne_nil t)
      | cons g gs =>
        rw [hsplit] at h
        simp only [List.cons.injEq] at h
        obtain ⟨rfl, rfl⟩ := h
        rcases ih g gs hsplit with ⟨h1, h2⟩ | ⟨rest, h1, h2⟩
        · exact Or.inl ⟨h1, by rw [h2]⟩
        · exact Or.inr ⟨rest, by rw [h1]; rfl, h2⟩

/-- The dotted-quad predicate spelled out: four octet fields joined by single dots. -/
theorem isDottedQuad_iff (s : List Char) :
    isDottedQuad s = true ↔
      ∃ f1 f2 f3 f4, isOctetField f1 = true ∧ isOctetField f2 = true ∧
        isOctetField f3 = true ∧ isOctetField f4 = true ∧
        s = f1 ++ '.' :: (f2 ++ '.' :: (f3 ++ '.' :: f4)) := by
  constructor
  · intro h
    simp only [isDottedQuad, Bool.and_eq_true, decide_eq_true_eq] at h
    obtain ⟨hlen, hall⟩ := h
    match hs : splitDots s, hlen, hall with
    | [f1, f2, f3, f4], _, hall =>
      simp only [List.all_cons, List.all_nil, Bool.and_true, Bool.and_eq_true] at hall
      obtain ⟨h1, h2, h3, h4⟩ := hall
      rcases splitDots_cons_inv s f1 _ hs with ⟨h, -⟩ | ⟨r1, e1, hs1⟩
      · cases h
      rcases splitDots_cons_inv r1 f2 _ hs1 with ⟨h, -⟩ | ⟨r2, e2, hs2⟩
      · cases h
      rcases splitDots_cons_inv r2 f3 _ hs2 with ⟨h, -⟩ | ⟨r3, e3, hs3⟩
      · cases h
      rcases splitDots_cons_inv r3 f4 _ hs3 with ⟨-, e4⟩ | ⟨r4, -, hs4⟩
      · exact ⟨f1, f2, f3, f4, h1, h2, h3, h4, by rw [e1, e2, e3, e4]⟩
      · exact absurd hs4 (splitDots_ne_nil r4)
  · rintro ⟨f1, f2, f3, f4, h1, h2, h3, h4, rfl⟩
    have hs : splitDots (f1 ++ '.' :: (f2 ++ '.' :: (f3 ++ '.' :: f4))) = [f1, f2, f3, f4] := by
      rw [splitDots_append_dot _ _ (no_dot_of_octet f1 h1),
        splitDots_append_dot _ _ (no_dot_of_octet f2 h2),
        splitDots_append_dot _ _ (no_dot_of_octet f3 h3),
        splitDots_nodot _ (no_dot_of_octet f4 h4)]
    simp [isDottedQuad, hs, h1, h2, h3, h4]

/-- C9: for every string `s`, `isValidIPAddress s` is true exactly when `s` is a dotted-quad
IPv4 address: exactly four fields separated by single dots, nothing before or after,
each field 1 to 3 decimal digits with a value in 0..255. -/
theorem isValidIPAddress_iff_dotted_quad (s : List Char) :
    isValidIPAddress s = true ↔ isDottedQuad s = true := by
  rw [isValidIPAddress, regex_match_iff, ipAddress_sem, isDottedQuad_iff]

/-! ## The y-ranges of the plots -/

theorem draw_of_nonempty (s : RealtimePlot) (h : s.xData ≠ []) :
    s.Draw.map (fun p => (p.yMin, p.yMax)) =
      [(20, 45), (s.pressureMin, s.pressureMax), (10, 70)] := by
  have hne : s.xData.isEmpty = false := by
    cases hx : s.xData with
    | nil => exact absurd hx h
    | cons a l => rfl
  simp [RealtimePlot.Draw, hne]

/-- C11 (evaluation of the code): for every plot object, `plotFinalGraphs` passes (20, 45)
for temperature but (30, 70), not (10, 70), for humidity; on a fresh plot the live
`Draw` callback uses (20, 45) and (10, 70). So the humidity range differs between the
two places where the series is drawn. -/
theorem plotFinalGraphs_humidity_range (s : RealtimePlot) :
    s.plotFinalGraphs.map (fun g => (g.title, g.yMin, g.yMax)) =
      [("Temperature", 20, 45), ("Pressure", s.pressureMin, s.pressureMax),
        ("Humidity", 30, 70)] ∧
    ((30 : ℚ), (70 : ℚ)) ≠ (10, 70) ∧
    (RealtimePlot.new "lab" "out" 60).Draw.map (fun p => (p.yMin, p.yMax)) =
      [(20, 45), (0, 0), (10, 70)] := by
  refine ⟨rfl, by norm_num, ?_⟩
  exact draw_of_nonempty _ (by rw [RealtimePlot.new, maxPoints_eq]; exact List.cons_ne_nil _ _)

end WeatherSensor
